import Mathlib

/-!
A shallow embedding of the real-time detection-tracking pipeline of this
repository, together with theorems settling the specification claims.

Conventions of the embedding:
* Python floats are modelled as rationals (`ℚ`); timestamps (`datetime.now()`)
  are rationals measured in seconds.
* Python dicts keyed by track id / client id are modelled as association
  lists `List (Nat × _)` in insertion order, matching CPython dict order.
* Fallible external calls (websocket close, model inference) are modelled by
  an explicit Boolean / `Except` parameter describing their outcome.
* Methods that the repository calls but whose bodies are absent from the
  source tree (`_predict_tracks`, `_is_track_lost`, `_initialize_track`,
  `_generate_track_id`, `_cleanup_old_tracks` of `TrackingService`) are
  modelled from the specification; each such definition says so in its
  doc comment.
-/

/-- Bounding box in (x1, y1, x2, y2) pixel coordinates, as the 4-element
`bbox` lists of the source, with coordinates as rationals. -/
structure BBox where
  x1 : ℚ
  y1 : ℚ
  x2 : ℚ
  y2 : ℚ
deriving DecidableEq, Repr, Inhabited

/-- Epsilon floor of the IoU denominator, the literal `1e-6` of
`TrackingService._calculate_iou` (src/app/services/tracking_service.py:141). -/
def TrackingService.iou_eps : ℚ := 1 / 1000000

/-- Embedding of `TrackingService._calculate_iou`
(src/app/services/tracking_service.py:128-144): intersection over union with
the denominator floored to `1e-6`. -/
def TrackingService.calculate_iou (bbox1 bbox2 : BBox) : ℚ :=
  let x1 := max bbox1.x1 bbox2.x1
  let y1 := max bbox1.y1 bbox2.y1
  let x2 := min bbox1.x2 bbox2.x2
  let y2 := min bbox1.y2 bbox2.y2
  let intersection := max 0 (x2 - x1) * max 0 (y2 - y1)
  let area1 := (bbox1.x2 - bbox1.x1) * (bbox1.y2 - bbox1.y1)
  let area2 := (bbox2.x2 - bbox2.x1) * (bbox2.y2 - bbox2.y1)
  let union := area1 + area2 - intersection
  intersection / max union TrackingService.iou_eps

/-- Cost of one (row, column) pair of a cost matrix given as a list of rows. -/
def pairCost (M : List (List ℚ)) (p : Nat × Nat) : ℚ :=
  (M.getD p.1 []).getD p.2 0

/-- Total cost of a pairing: the sum of the costs of its pairs. -/
def assignmentCost (M : List (List ℚ)) (a : List (Nat × Nat)) : ℚ :=
  (a.map (pairCost M)).sum

/-- All one-to-one pairings between a list of row indices and a list of
column indices: each row is either skipped or paired with one remaining
column. -/
def allPairings : List Nat → List Nat → List (List (Nat × Nat))
  | [], _ => [[]]
  | r :: rs, cols =>
      allPairings rs cols ++
      cols.flatMap (fun c => (allPairings rs (cols.erase c)).map (fun a => (r, c) :: a))

/-- The maximal (full-size) one-to-one pairings: those of size
`min #rows #cols`, the size scipy's solver returns for a rectangular
matrix. -/
def maximalPairings (rows cols : List Nat) : List (List (Nat × Nat)) :=
  (allPairings rows cols).filter (fun a => a.length = min rows.length cols.length)

/-- Model of `scipy.optimize.linear_sum_assignment` as called at
src/app/services/tracking_service.py:108: an executable minimum-total-cost
choice among all maximal one-to-one pairings of the matrix's rows and
columns. -/
def linear_sum_assignment (M : List (List ℚ)) : List (Nat × Nat) :=
  let rows := List.range M.length
  let cols := List.range (M.headD []).length
  match maximalPairings rows cols with
  | [] => []
  | a :: rest =>
      rest.foldl (fun best x =>
        if assignmentCost M x < assignmentCost M best then x else best) a

/-- Default IoU gating threshold, `self.iou_threshold = 0.3` of
`TrackingService.__init__` (src/app/services/tracking_service.py:25). -/
def TrackingService.iou_threshold : ℚ := 3 / 10

/-- Cost matrix of the association step
(src/app/services/tracking_service.py:99-105): one row per predicted track,
one column per detection, entry `1 - IoU(predicted_bbox, detection_bbox)`. -/
def TrackingService.costMatrix (preds : List (Nat × BBox)) (dets : List BBox) :
    List (List ℚ) :=
  preds.map (fun p => dets.map (fun d => 1 - TrackingService.calculate_iou p.2 d))

/-- Embedding of `TrackingService._associate_detections`
(src/app/services/tracking_service.py:89-126).  Returns
`(matches, unmatched_detections, unmatched_tracks)`: solver pairs whose cost
is at most `1 - iou_threshold` become matches `(track_id, detection_index)`;
the unmatched lists start full and have each matched element removed, which
is `List.diff` (sequential `List.erase`, the code's `list.remove`). -/
def TrackingService.associate_detections (dets : List BBox)
    (preds : List (Nat × BBox)) :
    List (Nat × Nat) × List Nat × List Nat :=
  if dets.isEmpty || preds.isEmpty then
    ([], List.range dets.length, preds.map Prod.fst)
  else
    let M := TrackingService.costMatrix preds dets
    let pairs := linear_sum_assignment M
    let track_ids := preds.map Prod.fst
    let kept := pairs.filter
      (fun p => pairCost M p ≤ 1 - TrackingService.iou_threshold)
    let ms := kept.map (fun p => (track_ids.getD p.1 0, p.2))
    let unmatched_detections := (List.range dets.length).diff (kept.map Prod.snd)
    let unmatched_tracks := track_ids.diff (ms.map Prod.fst)
    (ms, unmatched_detections, unmatched_tracks)

/-- Lifecycle state tag of the specification's data model.  The source's
`tracked_objects` dictionaries carry no such tag; the field below is written
only by the spec-modelled `_initialize_track` and read by nothing in the
embedded source code. -/
inductive TrackState
  | Tentative
  | Confirmed
  | Lost
deriving DecidableEq, Repr

/-- One entry of `track_history[track_id]`
(src/app/services/tracking_service.py:156-160): center position, bbox and
timestamp. -/
structure HistEntry where
  position : ℚ × ℚ
  bbox : BBox
  timestamp : ℚ
deriving DecidableEq, Repr

/-- Per-id tracker record, merging the source's `tracked_objects[track_id]`
dict, `track_history[track_id]` list and `kalman_filters[track_id]` state
(the Kalman state is modelled by the last corrected bbox). -/
structure Track where
  state : TrackState
  last_bbox : BBox
  history : List HistEntry
  last_seen : ℚ
  consecutive_misses : Nat
deriving DecidableEq, Repr

/-- Whole-service mutable state of `TrackingService`: the track table in
insertion order, the next fresh track id, and `last_cleanup`. -/
structure TrackerState where
  tracked_objects : List (Nat × Track)
  next_id : Nat
  last_cleanup : ℚ
deriving DecidableEq, Repr

/-- First-match lookup in an association list keyed by `Nat`, the embedding
of a Python dict read. -/
def lookupKey {β : Type} (k : Nat) (l : List (Nat × β)) : Option β :=
  (l.find? (fun p => p.1 == k)).map Prod.snd

/-- Lookup in the track table. -/
def lookupTrack (id : Nat) (l : List (Nat × Track)) : Option Track :=
  lookupKey id l

/-- Removal of a key from the track table (`del` / dict cleanup). -/
def removeTrack (id : Nat) (l : List (Nat × Track)) : List (Nat × Track) :=
  l.filter (fun p => p.1 ≠ id)

/-- Maximum age before a track is considered lost,
`self.max_track_age = timedelta(seconds=5)`
(src/app/services/tracking_service.py:23). -/
def TrackingService.max_track_age : ℚ := 5

/-- Cleanup period, `self.cleanup_interval = timedelta(seconds=30)`
(src/app/services/tracking_service.py:22). -/
def TrackingService.cleanup_interval : ℚ := 30

/-- Embedding of `TrackingService._get_bbox_center`: the center point of a
bbox.  The method body is absent from the source tree; modelled as the
arithmetic center, the only reading consistent with its name and use. -/
def TrackingService.get_bbox_center (b : BBox) : ℚ × ℚ :=
  ((b.x1 + b.x2) / 2, (b.y1 + b.y2) / 2)

/-- Modelled from the spec: `TrackingService._predict_tracks` is called at
src/app/services/tracking_service.py:45 but its body is absent from the
source tree.  Per the spec's predict step it returns one predicted bbox per
live track; the motion model is taken as constant-position (the Kalman state
kept in `Track.last_bbox`), which the lifecycle claims do not depend on. -/
def TrackingService.predict_tracks (st : TrackerState) : List (Nat × BBox) :=
  st.tracked_objects.map (fun p => (p.1, p.2.last_bbox))

/-- Modelled from the spec: `TrackingService._is_track_lost` is called at
src/app/services/tracking_service.py:74 but its body is absent from the
source tree.  Per the spec's retirement rule and the `max_track_age`
attribute, a track is lost when more than `max_track_age` has elapsed since
its last matched update. -/
def TrackingService.is_track_lost (now : ℚ) (tr : Track) : Bool :=
  TrackingService.max_track_age < now - tr.last_seen

/-- Embedding of `TrackingService._update_track`
(src/app/services/tracking_service.py:146-174): correct the Kalman state
with the observation, append a history entry (popping the front beyond 30),
and set `last_seen`/`consecutive_misses`; the dict `update` call touches no
other key, in particular not the state tag. -/
def Track.updated (det : BBox) (now : ℚ) (tr : Track) : Track :=
  let hist := tr.history ++ [⟨TrackingService.get_bbox_center det, det, now⟩]
  let hist := if 30 < hist.length then hist.drop 1 else hist
  { tr with last_bbox := det, history := hist, last_seen := now,
            consecutive_misses := 0 }

/-- Modelled from the spec: `TrackingService._initialize_track` is called at
src/app/services/tracking_service.py:65 but its body is absent from the
source tree.  Per the spec's spawn step it creates a new `Tentative` track
from the detection, with a fresh history and a zero miss counter. -/
def TrackingService.initialize_track (det : BBox) (now : ℚ) : Track :=
  { state := TrackState.Tentative, last_bbox := det,
    history := [⟨TrackingService.get_bbox_center det, det, now⟩],
    last_seen := now, consecutive_misses := 0 }

/-- Embedding of `TrackingService._calculate_velocity`
(src/app/services/tracking_service.py:176-195): displacement of the two most
recent history points over their time difference, `(0, 0)` with fewer than
two points or a non-positive time difference. -/
def TrackingService.calculate_velocity (tr : Track) : ℚ × ℚ :=
  match tr.history.reverse with
  | b :: a :: _ =>
      let dt := b.timestamp - a.timestamp
      if 0 < dt then
        ((b.position.1 - a.position.1) / dt, (b.position.2 - a.position.2) / dt)
      else (0, 0)
  | _ => (0, 0)

/-- One entry of the list returned by `TrackingService.update`: the
detection enriched with its track id and velocity. -/
structure TrackedOut where
  track_id : Nat
  bbox : BBox
  velocity : ℚ × ℚ
deriving DecidableEq, Repr

/-- One iteration of the matched-tracks loop of `TrackingService.update`
(src/app/services/tracking_service.py:52-59): `_update_track` on the matched
id, then the output entry with the freshly recomputed velocity. -/
def TrackingService.matchStep (dets : List BBox) (now : ℚ)
    (acc : TrackerState × List TrackedOut) (m : Nat × Nat) :
    TrackerState × List TrackedOut :=
  let det := dets.getD m.2 default
  let objs := acc.1.tracked_objects.map
    (fun p => if p.1 = m.1 then (p.1, p.2.updated det now) else p)
  let st := { acc.1 with tracked_objects := objs }
  let v := match lookupTrack m.1 objs with
    | some tr => TrackingService.calculate_velocity tr
    | none => (0, 0)
  (st, acc.2 ++ [⟨m.1, det, v⟩])

/-- One iteration of the new-tracks loop of `TrackingService.update`
(src/app/services/tracking_service.py:61-70): a fresh id from the
spec-modelled `_generate_track_id` (an increasing counter, so an id is never
reused), `_initialize_track`, and the output entry with velocity `(0, 0)`. -/
def TrackingService.spawnStep (dets : List BBox) (now : ℚ)
    (acc : TrackerState × List TrackedOut) (di : Nat) :
    TrackerState × List TrackedOut :=
  let det := dets.getD di default
  let id := acc.1.next_id
  let st := { acc.1 with
    tracked_objects :=
      acc.1.tracked_objects ++ [(id, TrackingService.initialize_track det now)],
    next_id := id + 1 }
  (st, acc.2 ++ [⟨id, det, (0, 0)⟩])

/-- One iteration of the lost-tracks loop of `TrackingService.update`
(src/app/services/tracking_service.py:72-75): remove the unmatched track
when `_is_track_lost` holds of it, otherwise leave the state untouched. -/
def TrackingService.degradeStep (now : ℚ) (s : TrackerState) (tid : Nat) :
    TrackerState :=
  match lookupTrack tid s.tracked_objects with
  | some tr =>
      if TrackingService.is_track_lost now tr then
        { s with tracked_objects := removeTrack tid s.tracked_objects }
      else s
  | none => s

/-- Modelled from the spec: `TrackingService._cleanup_old_tracks` is called
at src/app/services/tracking_service.py:79 but its body is absent from the
source tree.  Per the spec's retirement rule it drops every track unmatched
for longer than `max_track_age`. -/
def TrackingService.cleanup_old_tracks (now : ℚ) (s : TrackerState) :
    TrackerState :=
  { s with tracked_objects :=
      s.tracked_objects.filter (fun p => ¬ TrackingService.is_track_lost now p.2) }

/-- Matched-tracks phase of `TrackingService.update`
(src/app/services/tracking_service.py:44-59): predict, associate, then fold
the matched-pairs loop over the state and output list. -/
def TrackingService.updateMatched (dets : List BBox) (now : ℚ)
    (st : TrackerState) : TrackerState × List TrackedOut :=
  (TrackingService.associate_detections dets
    (TrackingService.predict_tracks st)).1.foldl
      (TrackingService.matchStep dets now) (st, [])

/-- New-tracks phase of `TrackingService.update`
(src/app/services/tracking_service.py:61-70): fold the unmatched-detections
loop over the matched-phase result. -/
def TrackingService.updateSpawned (dets : List BBox) (now : ℚ)
    (st : TrackerState) : TrackerState × List TrackedOut :=
  (TrackingService.associate_detections dets
    (TrackingService.predict_tracks st)).2.1.foldl
      (TrackingService.spawnStep dets now)
      (TrackingService.updateMatched dets now st)

/-- Lost-tracks phase of `TrackingService.update`
(src/app/services/tracking_service.py:72-75): fold the unmatched-tracks
loop over the spawn-phase state. -/
def TrackingService.updateDegraded (dets : List BBox) (now : ℚ)
    (st : TrackerState) : TrackerState :=
  (TrackingService.associate_detections dets
    (TrackingService.predict_tracks st)).2.2.foldl
      (TrackingService.degradeStep now)
      (TrackingService.updateSpawned dets now st).1

/-- Periodic-cleanup phase of `TrackingService.update`
(src/app/services/tracking_service.py:77-80): when `cleanup_interval` has
elapsed since `last_cleanup`, run the cleanup and stamp `last_cleanup`. -/
def TrackingService.updateCleaned (dets : List BBox) (now : ℚ)
    (st : TrackerState) : TrackerState :=
  let s3 := TrackingService.updateDegraded dets now st
  if TrackingService.cleanup_interval < now - s3.last_cleanup then
    { TrackingService.cleanup_old_tracks now s3 with last_cleanup := now }
  else s3

/-- Embedding of `TrackingService.update`
(src/app/services/tracking_service.py:34-87).  An empty detection list
returns `[]` at once with the state untouched (lines 36-37); otherwise the
update predicts, associates, updates matched tracks, spawns tracks for
unmatched detections, removes lost unmatched tracks, and runs the periodic
cleanup when `cleanup_interval` has elapsed since `last_cleanup`. -/
def TrackingService.update (dets : List BBox) (now : ℚ) (st : TrackerState) :
    TrackerState × List TrackedOut :=
  if dets.isEmpty then (st, [])
  else (TrackingService.updateCleaned dets now st,
        (TrackingService.updateSpawned dets now st).2)

/-- One raw model box as produced by YOLO and read at
src/app/services/object_detection_service.py:108-115: xyxy bbox, confidence
and class index. -/
structure RawBox where
  xyxy : BBox
  conf : ℚ
  cls : Nat
deriving DecidableEq, Repr

/-- One detection dict as built at
src/app/services/object_detection_service.py:110-115. -/
structure Detection where
  bbox : BBox
  confidence : ℚ
  class_id : Nat
deriving DecidableEq, Repr

/-- Embedding of `ObjectDetectionService._detect_batch`
(src/app/services/object_detection_service.py:99-125).  The external model
call is a parameter: on success one list of raw boxes per frame, filtered by
the confidence threshold; on any inference error the method catches the
exception and returns one empty list per input frame. -/
def ObjectDetectionService.detect_batch (threshold : ℚ) (nframes : Nat)
    (modelOut : Except Unit (List (List RawBox))) : List (List Detection) :=
  match modelOut with
  | Except.error _ => List.replicate nframes []
  | Except.ok results =>
      results.map (fun boxes =>
        (boxes.filter (fun b => threshold < b.conf)).map
          (fun b => { bbox := b.xyxy, confidence := b.conf, class_id := b.cls }))

/-- How one `detect` call ends, per the branches of
`ObjectDetectionService.detect`
(src/app/services/object_detection_service.py:33-57): a truthy cache hit, a
future resolved within the 5-second ceiling with a per-frame result slice,
the `asyncio.wait_for` timeout once the ceiling elapses, or an exception
caught by the outer handler. -/
inductive DetectEvent
  | cache_hit (r : List Detection)
  | resolved (r : List Detection)
  | ceiling_timeout
  | errored
deriving DecidableEq, Repr

/-- Embedding of the value returned to the caller of
`ObjectDetectionService.detect` on each ending
(src/app/services/object_detection_service.py:33-57): the cached or resolved
detections, and the plain empty list on the timeout and error paths. -/
def ObjectDetectionService.detect : DetectEvent → List Detection
  | DetectEvent.cache_hit r => r
  | DetectEvent.resolved r => r
  | DetectEvent.ceiling_timeout => []
  | DetectEvent.errored => []

/-- Embedding of the fan-out loop of `ObjectDetectionService._process_batch`
(src/app/services/object_detection_service.py:88-92): deferred handle `i` of
the batch is resolved with slice `i` of the `_detect_batch` result. -/
def ObjectDetectionService.process_batch_resolutions (threshold : ℚ)
    (nframes : Nat) (modelOut : Except Unit (List (List RawBox))) :
    List (List Detection) :=
  ObjectDetectionService.detect_batch threshold nframes modelOut

/-- One entry of the result cache: the stored value and its absolute expiry
time, as kept by `cachetools.TTLCache` (expiry is insertion time plus the
TTL, never refreshed by an access). -/
structure CacheEntry where
  value : List Detection
  expires : ℚ
deriving DecidableEq, Repr

/-- State of `self.result_cache = TTLCache(maxsize=100, ttl=1.0)`
(src/app/services/object_detection_service.py:23), modelled from the
cachetools library the source uses: entries in insertion order with absolute
expiry times. -/
structure TTLCacheState where
  entries : List (Nat × CacheEntry)
deriving DecidableEq, Repr

/-- The cache TTL of one second
(src/app/services/object_detection_service.py:23). -/
def ObjectDetectionService.cache_ttl : ℚ := 1

/-- Lookup of a cache entry by fingerprint key. -/
def TTLCache.lookup (k : Nat) (st : TTLCacheState) : Option CacheEntry :=
  lookupKey k st.entries

/-- Embedding of `TTLCache.get` as cachetools implements it for the cache at
src/app/services/object_detection_service.py:23: an entry is returned only
while the current time is strictly before its expiry; an expired entry is
treated as absent.  An access mutates nothing: in particular it never
extends the entry's lifetime. -/
def TTLCache.get (now : ℚ) (k : Nat) (st : TTLCacheState) :
    Option (List Detection) :=
  match TTLCache.lookup k st with
  | some e => if e.expires ≤ now then none else some e.value
  | none => none

/-- Embedding of `TTLCache.__setitem__` as cachetools implements it for the
cache written at src/app/services/object_detection_service.py:90: mutation
first purges every expired entry, then writes the key with expiry
`now + ttl` (replacing in place a live entry with the same key, appending
otherwise). -/
def TTLCache.put (now : ℚ) (k : Nat) (v : List Detection)
    (st : TTLCacheState) : TTLCacheState :=
  let live := st.entries.filter (fun p => ¬ (p.2.expires ≤ now))
  if (lookupKey k live).isSome then
    ⟨live.map (fun p => if p.1 = k then (p.1, ⟨v, now + ObjectDetectionService.cache_ttl⟩) else p)⟩
  else
    ⟨live ++ [(k, ⟨v, now + ObjectDetectionService.cache_ttl⟩)]⟩

/-- One cache access: a `get` of some key at some time.  The claim about TTL
behaviour quantifies over arbitrary interleavings of these. -/
structure CacheAccess where
  time : ℚ
  key : Nat
deriving DecidableEq, Repr

/-- Applying a sequence of accesses to the cache: each is a cachetools
`get`, which reads the structure and mutates nothing. -/
def TTLCache.applyAccesses (ops : List CacheAccess) (st : TTLCacheState) :
    TTLCacheState :=
  ops.foldl (fun s op => let _ := TTLCache.get op.time op.key s; s) st

/-- State of `WebSocketManager` (src/app/core/websocket.py:12-18): the set
of active connections, per-client heartbeat timestamps and per-client
bounded outbound queues, each keyed by client id.  Messages are modelled as
opaque numeric payloads. -/
structure WSManagerState where
  active_connections : List Nat
  client_heartbeats : List (Nat × ℚ)
  client_message_queues : List (Nat × List Nat)
deriving DecidableEq, Repr

/-- Bound of each client's outbound queue,
`asyncio.Queue(maxsize=100)` (src/app/core/websocket.py:26). -/
def WebSocketManager.queue_maxsize : Nat := 100

/-- Embedding of `WebSocketManager.connect`
(src/app/core/websocket.py:20-32): record the connection, stamp the
heartbeat, and allocate the bounded queue. -/
def WebSocketManager.connect (now : ℚ) (cid : Nat) (st : WSManagerState) :
    WSManagerState :=
  { active_connections := st.active_connections ++ [cid],
    client_heartbeats :=
      st.client_heartbeats.filter (fun p => p.1 ≠ cid) ++ [(cid, now)],
    client_message_queues :=
      st.client_message_queues.filter (fun p => p.1 ≠ cid) ++ [(cid, [])] }

/-- Embedding of `WebSocketManager.disconnect`
(src/app/core/websocket.py:34-46).  When the client is unknown the call is a
no-op.  When it is known, the method first awaits the websocket's `close`:
if that call raises (`closeRaises`), the blanket `except` swallows the error
before any `del` runs, so every per-client entry survives; otherwise the
three `del` statements remove the connection, the heartbeat and the queue. -/
def WebSocketManager.disconnect (closeRaises : Bool) (cid : Nat)
    (st : WSManagerState) : WSManagerState :=
  if cid ∈ st.active_connections then
    if closeRaises then st
    else
      { active_connections := st.active_connections.filter (fun c => c ≠ cid),
        client_heartbeats := st.client_heartbeats.filter (fun p => p.1 ≠ cid),
        client_message_queues :=
          st.client_message_queues.filter (fun p => p.1 ≠ cid) }
  else st

/-- Outcome tag of one `WebSocketManager.send_message` call, naming the
branch of src/app/core/websocket.py:48-68 that ended it. -/
inductive SendOutcome
  | not_connected
  | dropped_queue_full
  | delivered
  | errored_disconnected
deriving DecidableEq, Repr

/-- Embedding of `WebSocketManager.send_message` followed by its
`_process_message_queue` drain (src/app/core/websocket.py:48-83).  An
unknown client returns at once.  A queue already holding `queue_maxsize`
messages stays full for the one-second `asyncio.wait_for` (the model is
single-threaded, no consumer runs), so the put times out and the method
returns with no state change and no exception.  Otherwise the message is
enqueued and the drain sends every queued message; a transport failure
during the drain (`sendFails`) is caught and triggers `disconnect`. -/
def WebSocketManager.send_message (sendFails : Bool) (cid : Nat) (msg : Nat)
    (st : WSManagerState) : WSManagerState × SendOutcome :=
  if cid ∉ st.active_connections then (st, SendOutcome.not_connected)
  else
    match lookupKey cid st.client_message_queues with
    | none => (WebSocketManager.disconnect false cid st,
               SendOutcome.errored_disconnected)
    | some q =>
        if WebSocketManager.queue_maxsize ≤ q.length then
          (st, SendOutcome.dropped_queue_full)
        else
          let enq := { st with client_message_queues :=
            (st.client_message_queues.map
              (fun p => if p.1 = cid then (p.1, p.2 ++ [msg]) else p)) }
          if sendFails then
            (WebSocketManager.disconnect false cid enq,
             SendOutcome.errored_disconnected)
          else
            ({ enq with client_message_queues :=
                (enq.client_message_queues.map
                  (fun p => if p.1 = cid then (p.1, []) else p)) },
             SendOutcome.delivered)

/-- One per-client entry of `SurveillanceWebSocketHandler._active_connections`
(src/app/api/websocket_handler.py:88-93). -/
structure HandlerConn where
  connected_at : ℚ
  last_activity : ℚ
  reconnect_attempts : Nat
deriving DecidableEq, Repr

/-- Connection-tracking state of `SurveillanceWebSocketHandler`:
`_active_connections` and `_processing_tasks`, keyed by client id. -/
structure HandlerState where
  active : List (Nat × HandlerConn)
  processing_tasks : List Nat
deriving DecidableEq, Repr

/-- Bound `self._max_reconnect_attempts = 3`
(src/app/api/websocket_handler.py:39). -/
def SurveillanceWebSocketHandler.max_reconnect_attempts : Nat := 3

/-- Backoff `self._reconnect_delay = 5`
(src/app/api/websocket_handler.py:40). -/
def SurveillanceWebSocketHandler.reconnect_delay : ℚ := 5

/-- Embedding of `SurveillanceWebSocketHandler._initialize_connection`
(src/app/api/websocket_handler.py:85-94): the dict assignment stores a fresh
entry for the client id — `reconnect_attempts` starts at 0 — replacing in
place any previous entry with that id. -/
def SurveillanceWebSocketHandler.initialize_connection (now : ℚ) (cid : Nat)
    (st : HandlerState) : HandlerState :=
  if (lookupKey cid st.active).isSome then
    { st with active := (st.active.map
        (fun p => if p.1 = cid then (p.1, ⟨now, now, 0⟩) else p)) }
  else
    { st with active := st.active ++ [(cid, ⟨now, now, 0⟩)] }

/-- Result of one reconnection attempt. -/
inductive ReconnectOutcome
  | Accepted
  | Refused
deriving DecidableEq, Repr

/-- Embedding of `SurveillanceWebSocketHandler._handle_reconnection`
(src/app/api/websocket_handler.py:96-106), reached only when the client id
already has an entry: with `reconnect_attempts` at the bound the new socket
is closed (code 4001) and nothing changes; otherwise the stored counter is
incremented, the call sleeps for the backoff delay, and
`_initialize_connection` then overwrites the entry with a fresh one whose
counter is 0. -/
def SurveillanceWebSocketHandler.handle_reconnection (now : ℚ) (cid : Nat)
    (st : HandlerState) : ReconnectOutcome × HandlerState :=
  match lookupKey cid st.active with
  | none => (ReconnectOutcome.Refused, st)
  | some ci =>
      if SurveillanceWebSocketHandler.max_reconnect_attempts ≤ ci.reconnect_attempts then
        (ReconnectOutcome.Refused, st)
      else
        let st1 := { st with active := (st.active.map
          (fun p => if p.1 = cid then
              (p.1, (⟨p.2.connected_at, p.2.last_activity,
                p.2.reconnect_attempts + 1⟩ : HandlerConn))
            else p)) }
        (ReconnectOutcome.Accepted,
         SurveillanceWebSocketHandler.initialize_connection
           (now + SurveillanceWebSocketHandler.reconnect_delay) cid st1)

/-- Embedding of `SurveillanceWebSocketHandler._cleanup_client`
(src/app/api/websocket_handler.py:182-194) acting on the handler's task
table and the manager state: cancel and drop the pending processing task,
then `WebSocketManager.disconnect`. -/
def SurveillanceWebSocketHandler.cleanup_client (closeRaises : Bool)
    (cid : Nat) (tasks : List Nat) (mgr : WSManagerState) :
    List Nat × WSManagerState :=
  (tasks.filter (fun t => t ≠ cid),
   WebSocketManager.disconnect closeRaises cid mgr)

/-- Box A of the spec's IoU test vector. -/
def boxA : BBox := ⟨0, 0, 10, 10⟩

/-- Box B of the spec's IoU test vector. -/
def boxB : BBox := ⟨5, 5, 15, 15⟩

/-- An identical-pair box whose positive area `1/4000000` lies below the
`1e-6` epsilon floor of the IoU denominator. -/
def tinyBox : BBox := ⟨0, 0, 1/2000, 1/2000⟩

/-- An empty tracker state, as after `TrackingService.__init__`. -/
def c1Start : TrackerState := ⟨[], 0, 0⟩

/-- First update of the confirmation scenario: one detection at `boxA`,
time 0 — spawns track 0. -/
def c1Step0 : TrackerState × List TrackedOut :=
  TrackingService.update [boxA] 0 c1Start

/-- Second update: the same box at time 1 — a matched update of track 0. -/
def c1Step1 : TrackerState × List TrackedOut :=
  TrackingService.update [boxA] 1 c1Step0.1

/-- Third update: the same box at time 2 — a matched update of track 0. -/
def c1Step2 : TrackerState × List TrackedOut :=
  TrackingService.update [boxA] 2 c1Step1.1

/-- Fourth update: the same box at time 3 — a matched update of track 0. -/
def c1Step3 : TrackerState × List TrackedOut :=
  TrackingService.update [boxA] 3 c1Step2.1

/-- A live track last matched at time 0, with no misses recorded. -/
def c3Track : Track := ⟨TrackState.Tentative, boxA, [], 0, 0⟩

/-- A tracker state holding only `c3Track` under id 0. -/
def c3State : TrackerState := ⟨[(0, c3Track)], 1, 0⟩

/-- A detection box disjoint from `boxA`, guaranteed to be gated out. -/
def farBox : BBox := ⟨100, 100, 110, 110⟩

/-- Handler state after client 1 first connects at time 0. -/
def c8State0 : HandlerState :=
  SurveillanceWebSocketHandler.initialize_connection 0 1 ⟨[], []⟩

/-- First reconnection attempt of client 1, at time 10. -/
def c8R1 : ReconnectOutcome × HandlerState :=
  SurveillanceWebSocketHandler.handle_reconnection 10 1 c8State0

/-- Second reconnection attempt, at time 20. -/
def c8R2 : ReconnectOutcome × HandlerState :=
  SurveillanceWebSocketHandler.handle_reconnection 20 1 c8R1.2

/-- Third reconnection attempt, at time 30. -/
def c8R3 : ReconnectOutcome × HandlerState :=
  SurveillanceWebSocketHandler.handle_reconnection 30 1 c8R2.2

/-- Fourth reconnection attempt, at time 40. -/
def c8R4 : ReconnectOutcome × HandlerState :=
  SurveillanceWebSocketHandler.handle_reconnection 40 1 c8R3.2

/-- A valid one-to-one pairing of the same size as the solver's, for an
`nR × nC` cost matrix: row indices pairwise distinct and in range, column
indices pairwise distinct and in range, and full size `min nR nC`. -/
def ValidPairing (nR nC : Nat) (p : List (Nat × Nat)) : Prop :=
  (p.map Prod.fst).Nodup ∧ (∀ x ∈ p.map Prod.fst, x < nR) ∧
  (p.map Prod.snd).Nodup ∧ (∀ y ∈ p.map Prod.snd, y < nC) ∧
  p.length = min nR nC

/-- Invariant of reachable tracker states: every live track is `Tentative`
(nothing in the source ever writes another state) and has an id below the
fresh-id counter, and track ids are pairwise distinct. -/
def TrackerInv (st : TrackerState) : Prop :=
  (∀ p ∈ st.tracked_objects,
      p.2.state = TrackState.Tentative ∧ p.1 < st.next_id) ∧
  (st.tracked_objects.map Prod.fst).Nodup

/-- The solver pairs that survive the gate of
src/app/services/tracking_service.py:116-120: exactly those whose cost
matrix entry is at most `1 - iou_threshold`. -/
def TrackingService.keptPairs (dets : List BBox) (preds : List (Nat × BBox)) :
    List (Nat × Nat) :=
  (linear_sum_assignment (TrackingService.costMatrix preds dets)).filter
    (fun q => pairCost (TrackingService.costMatrix preds dets) q ≤
      1 - TrackingService.iou_threshold)

/-- C4 counterexample.  The claim states `_calculate_iou` returns 1 for
identical boxes; but for the identical pair `tinyBox, tinyBox` — a genuine
box of positive area `1/4000000`, not a zero-area box — the epsilon floor
makes the denominator `1e-6` where the true union is `1/4000000`, so the
code returns `1/4`, not 1. -/
theorem iou_identical_tiny_counterexample :
    0 < (tinyBox.x2 - tinyBox.x1) * (tinyBox.y2 - tinyBox.y1) ∧
    TrackingService.calculate_iou tinyBox tinyBox = 1/4 ∧ (1/4 : ℚ) ≠ 1 := by
  refine ⟨by norm_num [tinyBox], ?_, by norm_num⟩
  norm_num [TrackingService.calculate_iou, TrackingService.iou_eps, tinyBox]

/-- C4 amended.  `_calculate_iou` returns intersection area over union area
with the denominator floored to `1e-6`: it returns `25/175` on the spec's
test pair, 0 for disjoint boxes, 1 for identical boxes whose area reaches
the epsilon floor (identical boxes of positive area below `1e-6` fall short
of 1, as the counterexample shows), 0 whenever one argument is a well-formed
zero-area box, and its denominator is at least the positive epsilon, so it
never divides by zero. -/
theorem iou_correct (b1 b2 : BBox) :
    TrackingService.calculate_iou boxA boxB = 25/175 ∧
    (b1.x2 ≤ b2.x1 ∨ b2.x2 ≤ b1.x1 ∨ b1.y2 ≤ b2.y1 ∨ b2.y2 ≤ b1.y1 →
      TrackingService.calculate_iou b1 b2 = 0) ∧
    (b1.x1 ≤ b1.x2 → b1.y1 ≤ b1.y2 →
      TrackingService.iou_eps ≤ (b1.x2 - b1.x1) * (b1.y2 - b1.y1) →
      TrackingService.calculate_iou b1 b1 = 1) ∧
    (b1.x1 ≤ b1.x2 → b1.y1 ≤ b1.y2 →
      (b1.x2 - b1.x1) * (b1.y2 - b1.y1) = 0 →
      TrackingService.calculate_iou b1 b2 = 0) ∧
    0 < max ((b1.x2 - b1.x1) * (b1.y2 - b1.y1) +
        (b2.x2 - b2.x1) * (b2.y2 - b2.y1) -
        max 0 (min b1.x2 b2.x2 - max b1.x1 b2.x1) *
          max 0 (min b1.y2 b2.y2 - max b1.y1 b2.y1)) TrackingService.iou_eps := by
  have heps : (0 : ℚ) < TrackingService.iou_eps := by
    norm_num [TrackingService.iou_eps]
  refine ⟨?_, ?_, ?_, ?_, ?_⟩
  · norm_num [TrackingService.calculate_iou, TrackingService.iou_eps, boxA, boxB]
  · intro h
    simp only [TrackingService.calculate_iou]
    rcases h with h | h | h | h
    · have hx : min b1.x2 b2.x2 - max b1.x1 b2.x1 ≤ 0 := by
        have h1 : min b1.x2 b2.x2 ≤ b1.x2 := min_le_left _ _
        have h2 : b2.x1 ≤ max b1.x1 b2.x1 := le_max_right _ _
        linarith
      rw [max_eq_left hx, zero_mul, zero_div]
    · have hx : min b1.x2 b2.x2 - max b1.x1 b2.x1 ≤ 0 := by
        have h1 : min b1.x2 b2.x2 ≤ b2.x2 := min_le_right _ _
        have h2 : b1.x1 ≤ max b1.x1 b2.x1 := le_max_left _ _
        linarith
      rw [max_eq_left hx, zero_mul, zero_div]
    · have hy : min b1.y2 b2.y2 - max b1.y1 b2.y1 ≤ 0 := by
        have h1 : min b1.y2 b2.y2 ≤ b1.y2 := min_le_left _ _
        have h2 : b2.y1 ≤ max b1.y1 b2.y1 := le_max_right _ _
        linarith
      rw [max_eq_left hy, mul_zero, zero_div]
    · have hy : min b1.y2 b2.y2 - max b1.y1 b2.y1 ≤ 0 := by
        have h1 : min b1.y2 b2.y2 ≤ b2.y2 := min_le_right _ _
        have h2 : b1.y1 ≤ max b1.y1 b2.y1 := le_max_left _ _
        linarith
      rw [max_eq_left hy, mul_zero, zero_div]
  · intro hx hy harea
    simp only [TrackingService.calculate_iou]
    rw [min_self, min_self, max_self, max_self,
        max_eq_right (sub_nonneg.mpr hx), max_eq_right (sub_nonneg.mpr hy)]
    have hU : (b1.x2 - b1.x1) * (b1.y2 - b1.y1) +
        (b1.x2 - b1.x1) * (b1.y2 - b1.y1) -
        (b1.x2 - b1.x1) * (b1.y2 - b1.y1) =
        (b1.x2 - b1.x1) * (b1.y2 - b1.y1) := by ring
    rw [hU, max_eq_left harea]
    exact div_self (ne_of_gt (lt_of_lt_of_le heps harea))
  · intro hx hy harea
    simp only [TrackingService.calculate_iou]
    rcases mul_eq_zero.mp harea with hw | hh
    · have hx0 : min b1.x2 b2.x2 - max b1.x1 b2.x1 ≤ 0 := by
        have h1 : min b1.x2 b2.x2 ≤ b1.x2 := min_le_left _ _
        have h2 : b1.x1 ≤ max b1.x1 b2.x1 := le_max_left _ _
        linarith
      rw [max_eq_left hx0, zero_mul, zero_div]
    · have hy0 : min b1.y2 b2.y2 - max b1.y1 b2.y1 ≤ 0 := by
        have h1 : min b1.y2 b2.y2 ≤ b1.y2 := min_le_left _ _
        have h2 : b1.y1 ≤ max b1.y1 b2.y1 := le_max_left _ _
        linarith
      rw [max_eq_left hy0, mul_zero, zero_div]
  · exact lt_of_lt_of_le heps (le_max_right _ _)

/-- C4 witness: the amended theorem applied at concrete inputs — a disjoint
pair, an identical pair of area 100, and a zero-width degenerate box. -/
theorem iou_correct_witness :
    TrackingService.calculate_iou ⟨0, 0, 1, 1⟩ ⟨2, 2, 3, 3⟩ = 0 ∧
    TrackingService.calculate_iou boxA boxA = 1 ∧
    TrackingService.calculate_iou ⟨0, 0, 0, 5⟩ ⟨1, 1, 2, 2⟩ = 0 := by
  refine ⟨?_, ?_, ?_⟩
  · exact (iou_correct ⟨0, 0, 1, 1⟩ ⟨2, 2, 3, 3⟩).2.1 (by norm_num)
  · exact (iou_correct boxA boxA).2.2.1 (by norm_num [boxA]) (by norm_num [boxA])
      (by norm_num [boxA, TrackingService.iou_eps])
  · exact (iou_correct ⟨0, 0, 0, 5⟩ ⟨1, 1, 2, 2⟩).2.2.2.1 (by norm_num)
      (by norm_num) (by norm_num)

/-- The minimum-selection fold chooses one of the candidates. -/
theorem foldl_min_mem {α : Type} (f : α → ℚ) (l : List α) (a : α) :
    l.foldl (fun best x => if f x < f best then x else best) a ∈ a :: l := by
  induction l generalizing a with
  | nil => simp
  | cons y ys ih =>
      simp only [List.foldl_cons]
      by_cases hc : f y < f a
      · rw [if_pos hc]
        rcases List.mem_cons.mp (ih y) with h | h
        · rw [h]; exact List.mem_cons.mpr (Or.inr (List.mem_cons_self y ys))
        · exact List.mem_cons.mpr (Or.inr (List.mem_cons.mpr (Or.inr h)))
      · rw [if_neg hc]
        rcases List.mem_cons.mp (ih a) with h | h
        · rw [h]; exact List.mem_cons_self a (y :: ys)
        · exact List.mem_cons.mpr (Or.inr (List.mem_cons.mpr (Or.inr h)))

/-- The minimum-selection fold is no worse than any candidate. -/
theorem foldl_min_le {α : Type} (f : α → ℚ) (l : List α) (a : α) :
    ∀ x ∈ a :: l,
      f (l.foldl (fun best y => if f y < f best then y else best) a) ≤ f x := by
  induction l generalizing a with
  | nil =>
      intro x hx
      rcases List.mem_cons.mp hx with h | h
      · rw [h]; simp
      · simp at h
  | cons y ys ih =>
      intro x hx
      simp only [List.foldl_cons]
      have ha'le_a : f (if f y < f a then y else a) ≤ f a := by
        by_cases hc : f y < f a
        · rw [if_pos hc]; exact le_of_lt hc
        · rw [if_neg hc]
      have ha'le_y : f (if f y < f a then y else a) ≤ f y := by
        by_cases hc : f y < f a
        · rw [if_pos hc]
        · rw [if_neg hc]; exact le_of_not_lt hc
      have key := ih (if f y < f a then y else a)
      have hka : f (ys.foldl (fun best y => if f y < f best then y else best)
          (if f y < f a then y else a)) ≤ f (if f y < f a then y else a) :=
        key _ (List.mem_cons_self _ _)
      rcases List.mem_cons.mp hx with h | h
      · rw [h]; exact le_trans hka ha'le_a
      · rcases List.mem_cons.mp h with h2 | h2
        · rw [h2]; exact le_trans hka ha'le_y
        · exact key x (List.mem_cons_of_mem _ h2)

/-- Completeness of the pairing enumeration: every list of pairs with
pairwise-distinct row indices drawn from `rows` and pairwise-distinct column
indices drawn from `cols` is, up to permutation, generated by
`allPairings rows cols`. -/
theorem allPairings_complete (rows : List Nat) :
    ∀ (cols : List Nat) (p : List (Nat × Nat)),
      (p.map Prod.fst).Nodup → (∀ x ∈ p.map Prod.fst, x ∈ rows) →
      (p.map Prod.snd).Nodup → (∀ y ∈ p.map Prod.snd, y ∈ cols) →
      ∃ q ∈ allPairings rows cols, q.Perm p := by
  induction rows with
  | nil =>
      intro cols p hf hfs _ _
      have hp : p = [] := by
        cases p with
        | nil => rfl
        | cons pr prs =>
            exact absurd (hfs pr.1 (List.mem_map_of_mem Prod.fst
              (List.mem_cons_self pr prs))) (List.not_mem_nil _)
      exact ⟨[], by simp [allPairings], by rw [hp]⟩
  | cons r rs ih =>
      intro cols p hf hfs hs hss
      by_cases hr : r ∈ p.map Prod.fst
      · obtain ⟨pr, hpr, hpr1⟩ := List.mem_map.mp hr
        obtain ⟨p', hperm⟩ : ∃ p', p.Perm (pr :: p') :=
          ⟨_, List.perm_cons_erase hpr⟩
        have hpermf : (p.map Prod.fst).Perm (pr.1 :: p'.map Prod.fst) := by
          simpa using hperm.map Prod.fst
        have hperms : (p.map Prod.snd).Perm (pr.2 :: p'.map Prod.snd) := by
          simpa using hperm.map Prod.snd
        have hf' : (pr.1 :: p'.map Prod.fst).Nodup := hpermf.nodup hf
        have hs' : (pr.2 :: p'.map Prod.snd).Nodup := hperms.nodup hs
        have hrnotin : pr.1 ∉ p'.map Prod.fst := (List.nodup_cons.mp hf').1
        have hcnotin : pr.2 ∉ p'.map Prod.snd := (List.nodup_cons.mp hs').1
        have hfs' : ∀ x ∈ p'.map Prod.fst, x ∈ rs := by
          intro x hx
          have hxp : x ∈ p.map Prod.fst :=
            hpermf.symm.subset (List.mem_cons_of_mem _ hx)
          have hxr : x ≠ r := by
            intro hxr
            exact hrnotin (by rw [hpr1, ← hxr]; exact hx)
          rcases List.mem_cons.mp (hfs x hxp) with h | h
          · exact absurd h hxr
          · exact h
        have hcin : pr.2 ∈ cols :=
          hss pr.2 (List.mem_map_of_mem Prod.snd hpr)
        have hss' : ∀ y ∈ p'.map Prod.snd, y ∈ cols.erase pr.2 := by
          intro y hy
          have hyp : y ∈ p.map Prod.snd :=
            hperms.symm.subset (List.mem_cons_of_mem _ hy)
          have hyc : y ≠ pr.2 := by
            intro hyc
            exact hcnotin (hyc ▸ hy)
          exact (List.mem_erase_of_ne hyc).mpr (hss y hyp)
        obtain ⟨q', hq'mem, hq'perm⟩ := ih (cols.erase pr.2) p'
          (List.nodup_cons.mp hf').2 hfs' (List.nodup_cons.mp hs').2 hss'
        have hpr_eq : pr = (r, pr.2) := by
          rw [← hpr1]
        rw [hpr_eq] at hperm
        refine ⟨(r, pr.2) :: q', ?_, ?_⟩
        · simp only [allPairings, List.mem_append]
          right
          rw [List.mem_flatMap]
          exact ⟨pr.2, hcin, List.mem_map.mpr ⟨q', hq'mem, rfl⟩⟩
        · exact (hq'perm.cons _).trans hperm.symm
      · have hfs' : ∀ x ∈ p.map Prod.fst, x ∈ rs := by
          intro x hx
          rcases List.mem_cons.mp (hfs x hx) with h | h
          · exact absurd (h ▸ hx) hr
          · exact h
        obtain ⟨q, hqmem, hqperm⟩ := ih cols p hf hfs' hs hss
        exact ⟨q, by simp only [allPairings, List.mem_append]; exact Or.inl hqmem,
          hqperm⟩

/-- C5.  For every cost matrix built in the association step, the pairing
chosen by the assignment solver has total cost at most the total cost of any
valid one-to-one pairing of the same (full) size.  The solver is scipy's
`linear_sum_assignment`, modelled by its contract as an executable
minimum-cost choice over all maximal pairings; the theorem proves that model
optimal. -/
theorem assignment_optimal (preds : List (Nat × BBox)) (dets : List BBox)
    (p : List (Nat × Nat)) (hne : preds ≠ [])
    (hvalid : ValidPairing preds.length dets.length p) :
    assignmentCost (TrackingService.costMatrix preds dets)
        (linear_sum_assignment (TrackingService.costMatrix preds dets)) ≤
      assignmentCost (TrackingService.costMatrix preds dets) p := by
  obtain ⟨hf, hfs, hs, hss, hlen⟩ := hvalid
  set M := TrackingService.costMatrix preds dets with hM
  have hMlen : M.length = preds.length := by
    simp [hM, TrackingService.costMatrix]
  have hhead : (M.headD []).length = dets.length := by
    cases preds with
    | nil => exact absurd rfl hne
    | cons a l => simp [hM, TrackingService.costMatrix]
  obtain ⟨q, hqmem, hqperm⟩ := allPairings_complete (List.range M.length)
    (List.range (M.headD []).length) p hf
    (fun x hx => List.mem_range.mpr (by rw [hMlen]; exact hfs x hx))
    hs (fun y hy => List.mem_range.mpr (by rw [hhead]; exact hss y hy))
  have hqlen : q.length = min (List.range M.length).length
      (List.range (M.headD []).length).length := by
    rw [hqperm.length_eq, hlen, List.length_range, List.length_range, hMlen,
      hhead]
  have hqmax : q ∈ maximalPairings (List.range M.length)
      (List.range (M.headD []).length) := by
    rw [maximalPairings, List.mem_filter]
    exact ⟨hqmem, by simp [hqlen]⟩
  have hcost : assignmentCost M q = assignmentCost M p := by
    unfold assignmentCost
    exact (hqperm.map (pairCost M)).sum_eq
  cases hmp : maximalPairings (List.range M.length)
      (List.range (M.headD []).length) with
  | nil =>
      rw [hmp] at hqmax
      exact absurd hqmax (List.not_mem_nil _)
  | cons a rest =>
      have hsolver : linear_sum_assignment M =
          rest.foldl (fun best x =>
            if assignmentCost M x < assignmentCost M best then x else best) a := by
        simp only [linear_sum_assignment]
        rw [hmp]
      rw [hsolver, ← hcost]
      exact foldl_min_le (assignmentCost M) rest a q (by rw [hmp] at hqmax; exact hqmax)

/-- C5 witness: the optimality theorem applied to the concrete 2-track,
1-detection association matrix and the concrete rival pairing `[(1, 0)]`. -/
theorem assignment_optimal_witness :
    assignmentCost (TrackingService.costMatrix [(5, boxA), (9, boxB)] [boxB])
        (linear_sum_assignment
          (TrackingService.costMatrix [(5, boxA), (9, boxB)] [boxB])) ≤
      assignmentCost (TrackingService.costMatrix [(5, boxA), (9, boxB)] [boxB])
        [(1, 0)] :=
  assignment_optimal [(5, boxA), (9, boxB)] [boxB] [(1, 0)]
    (by decide) ⟨by decide, by decide, by decide, by decide, by decide⟩

/-- C6.  In the association step (non-degenerate inputs, distinct track
ids), a solver pair is retained exactly when its cost does not exceed
`1 - iou_threshold`; the returned matches are exactly the retained pairs
with their track ids substituted; and the unmatched detections and tracks
are exactly those not in a retained pair. -/
theorem gating (dets : List BBox) (preds : List (Nat × BBox))
    (hd : dets ≠ []) (hp : preds ≠ [])
    (hnd : (preds.map Prod.fst).Nodup) :
    (∀ q, q ∈ TrackingService.keptPairs dets preds ↔
        q ∈ linear_sum_assignment (TrackingService.costMatrix preds dets) ∧
        pairCost (TrackingService.costMatrix preds dets) q ≤
          1 - TrackingService.iou_threshold) ∧
    (TrackingService.associate_detections dets preds).1 =
      (TrackingService.keptPairs dets preds).map
        (fun q => ((preds.map Prod.fst).getD q.1 0, q.2)) ∧
    (∀ j, j ∈ (TrackingService.associate_detections dets preds).2.1 ↔
        j < dets.length ∧
        j ∉ (TrackingService.keptPairs dets preds).map Prod.snd) ∧
    (∀ tid, tid ∈ (TrackingService.associate_detections dets preds).2.2 ↔
        tid ∈ preds.map Prod.fst ∧
        tid ∉ (TrackingService.associate_detections dets preds).1.map
          Prod.fst) := by
  have hde : dets.isEmpty = false := by
    cases dets with
    | nil => exact absurd rfl hd
    | cons _ _ => rfl
  have hpe : preds.isEmpty = false := by
    cases preds with
    | nil => exact absurd rfl hp
    | cons _ _ => rfl
  have hassoc : TrackingService.associate_detections dets preds =
      ((TrackingService.keptPairs dets preds).map
        (fun q => ((preds.map Prod.fst).getD q.1 0, q.2)),
       (List.range dets.length).diff
         ((TrackingService.keptPairs dets preds).map Prod.snd),
       (preds.map Prod.fst).diff
         (((TrackingService.keptPairs dets preds).map
           (fun q => ((preds.map Prod.fst).getD q.1 0, q.2))).map Prod.fst)) := by
    simp only [TrackingService.associate_detections, TrackingService.keptPairs,
      hde, hpe, Bool.or_self, Bool.false_eq_true, if_false]
  refine ⟨fun q => ?_, ?_, fun j => ?_, fun tid => ?_⟩
  · simp [TrackingService.keptPairs, List.mem_filter]
  · rw [hassoc]
  · rw [hassoc]
    constructor
    · intro h
      have h2 := (List.Nodup.mem_diff_iff (List.nodup_range dets.length)).mp h
      exact ⟨List.mem_range.mp h2.1, h2.2⟩
    · intro h
      exact (List.Nodup.mem_diff_iff (List.nodup_range dets.length)).mpr
        ⟨List.mem_range.mpr h.1, h.2⟩
  · rw [hassoc]
    exact List.Nodup.mem_diff_iff hnd

/-- C6 witness: the gating theorem applied to one detection and one track
whose boxes coincide, instantiated at detection index 0. -/
theorem gating_witness :
    0 ∈ (TrackingService.associate_detections [boxA] [(7, boxA)]).2.1 ↔
      0 < [boxA].length ∧
      0 ∉ (TrackingService.keptPairs [boxA] [(7, boxA)]).map Prod.snd :=
  (gating [boxA] [(7, boxA)] (by decide) (by decide) (by decide)).2.2.1 0

/-- Lookup skips a head entry with a different key. -/
theorem lookupKey_cons_of_ne {β : Type} {p : Nat × β} {ps : List (Nat × β)}
    {k : Nat} (h : p.1 ≠ k) : lookupKey k (p :: ps) = lookupKey k ps := by
  rw [lookupKey, List.find?_cons_of_neg _ (by simp [h]), lookupKey]

/-- Lookup finds a head entry with the asked key. -/
theorem lookupKey_cons_self {β : Type} {p : Nat × β} {ps : List (Nat × β)}
    {k : Nat} (h : p.1 = k) : lookupKey k (p :: ps) = some p.2 := by
  rw [lookupKey, List.find?_cons_of_pos _ (by simp [h])]
  rfl

/-- A key is found exactly when it occurs among the keys. -/
theorem lookupKey_isSome_iff {β : Type} (k : Nat) (l : List (Nat × β)) :
    (lookupKey k l).isSome ↔ k ∈ l.map Prod.fst := by
  induction l with
  | nil => simp [lookupKey]
  | cons p ps ih =>
      by_cases h : p.1 = k
      · rw [lookupKey_cons_self h]
        simp [h]
      · rw [lookupKey_cons_of_ne h]
        simp only [List.map_cons, List.mem_cons, ih]
        constructor
        · exact Or.inr
        · intro hc
          rcases hc with hc | hc
          · exact absurd hc.symm h
          · exact hc

/-- A missing key is exactly one occurring in no entry. -/
theorem lookupKey_eq_none_iff {β : Type} (k : Nat) (l : List (Nat × β)) :
    lookupKey k l = none ↔ k ∉ l.map Prod.fst := by
  rw [← lookupKey_isSome_iff k l, ← Option.not_isSome_iff_eq_none]

/-- A successful lookup returns an entry of the list, keyed as asked. -/
theorem mem_of_lookupKey_some {β : Type} {k : Nat} {l : List (Nat × β)}
    {v : β} (h : lookupKey k l = some v) : (k, v) ∈ l := by
  rw [lookupKey] at h
  cases hf : l.find? (fun p => p.1 == k) with
  | none => rw [hf] at h; simp at h
  | some p =>
      rw [hf] at h
      have hp := List.find?_some hf
      have hmem := List.mem_of_find?_eq_some hf
      have h1 : p.1 = k := by simpa using hp
      have h2 : p.2 = v := by simpa using h
      have hpe : p = (k, v) := by
        cases p
        simp only at h1 h2
        rw [h1, h2]
      rw [← hpe]
      exact hmem

/-- With pairwise-distinct keys, membership determines the lookup. -/
theorem lookupKey_of_mem_nodup {β : Type} {k : Nat} {v : β}
    {l : List (Nat × β)} (hnd : (l.map Prod.fst).Nodup) (h : (k, v) ∈ l) :
    lookupKey k l = some v := by
  induction l with
  | nil => simp at h
  | cons p ps ih =>
      rw [List.map_cons, List.nodup_cons] at hnd
      rcases List.mem_cons.mp h with h1 | h1
      · rw [← h1]
        exact lookupKey_cons_self rfl
      · have hne : p.1 ≠ k := by
          intro he
          exact hnd.1 (he ▸ List.mem_map_of_mem Prod.fst h1)
        rw [lookupKey_cons_of_ne hne]
        exact ih hnd.2 h1

/-- Lookup distributes over append, preferring the left list. -/
theorem lookupKey_append {β : Type} (k : Nat) (l t : List (Nat × β)) :
    lookupKey k (l ++ t) = (lookupKey k l).or (lookupKey k t) := by
  rw [lookupKey, lookupKey, lookupKey, List.find?_append]
  cases l.find? (fun p => p.1 == k) <;> simp

/-- Lookup through a key-preserving per-entry update: the entry at `m` has
`g` applied to its value, every other key reads unchanged. -/
theorem lookupKey_map_update {β : Type} (m : Nat) (g : β → β) (k : Nat)
    (l : List (Nat × β)) :
    lookupKey k (l.map (fun p => if p.1 = m then (p.1, g p.2) else p)) =
      (lookupKey k l).map (fun v => if k = m then g v else v) := by
  induction l with
  | nil => rfl
  | cons p ps ih =>
      rw [List.map_cons]
      by_cases h : p.1 = k
      · have hfst : (if p.1 = m then (p.1, g p.2) else p).1 = k := by
          by_cases hm : p.1 = m
          · rw [if_pos hm]; exact h
          · rw [if_neg hm]; exact h
        rw [lookupKey_cons_self hfst, lookupKey_cons_self h]
        by_cases hm : p.1 = m
        · have hkm : k = m := h.symm.trans hm
          rw [if_pos hm]
          simp [hkm]
        · have hkm : ¬ k = m := fun he => hm (h.trans he)
          rw [if_neg hm]
          simp [hkm]
      · have hfst : (if p.1 = m then (p.1, g p.2) else p).1 ≠ k := by
          by_cases hm : p.1 = m
          · rw [if_pos hm]; exact h
          · rw [if_neg hm]; exact h
        rw [lookupKey_cons_of_ne hfst, lookupKey_cons_of_ne h]
        exact ih

/-- Keys are untouched by a key-preserving per-entry update. -/
theorem map_fst_map_update {β : Type} (m : Nat) (g : β → β)
    (l : List (Nat × β)) :
    (l.map (fun p => if p.1 = m then (p.1, g p.2) else p)).map Prod.fst =
      l.map Prod.fst := by
  rw [List.map_map]
  apply List.map_congr_left
  intro p _
  by_cases hm : p.1 = m <;> simp [hm]

/-- Lookup through the removal of key `tid`. -/
theorem lookupKey_removeK {β : Type} (tid k : Nat) (l : List (Nat × β)) :
    lookupKey k (l.filter (fun p => p.1 ≠ tid)) =
      if k = tid then none else lookupKey k l := by
  induction l with
  | nil => by_cases hk : k = tid <;> simp [lookupKey, hk]
  | cons p ps ih =>
      by_cases hp : p.1 = tid
      · rw [List.filter_cons_of_neg (by simp [hp]), ih]
        by_cases hk : k = tid
        · rw [if_pos hk, if_pos hk]
        · have hpk : p.1 ≠ k := by
            rw [hp]
            exact fun he => hk he.symm
          rw [if_neg hk, if_neg hk, lookupKey_cons_of_ne hpk]
      · rw [List.filter_cons_of_pos (by simp [hp])]
        by_cases hpk : p.1 = k
        · have hk : ¬ k = tid := fun he => hp (hpk.trans he)
          rw [lookupKey_cons_self hpk, if_neg hk, lookupKey_cons_self hpk]
        · rw [lookupKey_cons_of_ne hpk, lookupKey_cons_of_ne hpk, ih]

/-- Lookup through a general filter, when keys are pairwise distinct: the
entry survives exactly when it passes the filter. -/
theorem lookupKey_filter {β : Type} (q : Nat × β → Bool) (k : Nat)
    (l : List (Nat × β)) (hnd : (l.map Prod.fst).Nodup) :
    lookupKey k (l.filter q) =
      match lookupKey k l with
      | some v => if q (k, v) then some v else none
      | none => none := by
  induction l with
  | nil => simp [lookupKey]
  | cons p ps ih =>
      rw [List.map_cons, List.nodup_cons] at hnd
      by_cases hpk : p.1 = k
      · have hpkv : (k, p.2) = p := by
          cases p
          simp only at hpk
          rw [hpk]
        by_cases hq : q p = true
        · rw [List.filter_cons_of_pos hq, lookupKey_cons_self hpk,
            lookupKey_cons_self hpk]
          show some p.2 = if q (k, p.2) then some p.2 else none
          rw [hpkv]
          simp [hq]
        · rw [List.filter_cons_of_neg hq, lookupKey_cons_self hpk]
          have hknotin : k ∉ ps.map Prod.fst := hpk ▸ hnd.1
          have hnone2 : lookupKey k (ps.filter q) = none := by
            rw [lookupKey_eq_none_iff]
            intro hmem
            obtain ⟨e, he, hek⟩ := List.mem_map.mp hmem
            exact hknotin (List.mem_map.mpr
              ⟨e, List.mem_of_mem_filter he, hek⟩)
          rw [hnone2]
          show none = if q (k, p.2) then some p.2 else none
          rw [hpkv]
          simp [hq]
      · by_cases hq : q p = true
        · rw [List.filter_cons_of_pos hq, lookupKey_cons_of_ne hpk,
            lookupKey_cons_of_ne hpk]
          exact ih hnd.2
        · rw [List.filter_cons_of_neg hq, lookupKey_cons_of_ne hpk]
          exact ih hnd.2

/-- `_update_track` never writes the lifecycle state tag. -/
theorem Track.updated_state (det : BBox) (now : ℚ) (tr : Track) :
    (tr.updated det now).state = tr.state := rfl

/-- `_update_track` stamps `last_seen` with the update time. -/
theorem Track.updated_last_seen (det : BBox) (now : ℚ) (tr : Track) :
    (tr.updated det now).last_seen = now := rfl

/-- `_update_track` resets the miss counter to zero. -/
theorem Track.updated_misses (det : BBox) (now : ℚ) (tr : Track) :
    (tr.updated det now).consecutive_misses = 0 := rfl

/-- The matched-pairs fold preserves the id counter, the cleanup stamp and
the key list of the track table. -/
theorem matchFold_state (dets : List BBox) (now : ℚ) (ms : List (Nat × Nat)) :
    ∀ acc : TrackerState × List TrackedOut,
      (ms.foldl (TrackingService.matchStep dets now) acc).1.next_id =
          acc.1.next_id ∧
      (ms.foldl (TrackingService.matchStep dets now) acc).1.last_cleanup =
          acc.1.last_cleanup ∧
      (ms.foldl (TrackingService.matchStep dets now) acc).1.tracked_objects.map
          Prod.fst = acc.1.tracked_objects.map Prod.fst := by
  induction ms with
  | nil => intro acc; exact ⟨rfl, rfl, rfl⟩
  | cons m ms ih =>
      intro acc
      rw [List.foldl_cons]
      refine ⟨(ih _).1, (ih _).2.1.trans ?_, (ih _).2.2.trans ?_⟩
      · rfl
      · show (TrackingService.matchStep dets now acc m).1.tracked_objects.map
            Prod.fst = acc.1.tracked_objects.map Prod.fst
        simp only [TrackingService.matchStep]
        exact map_fst_map_update m.1 _ acc.1.tracked_objects

/-- One step of the matched-pairs fold, seen through lookup: the matched id
has `_update_track` applied to its record, every other id is untouched. -/
theorem matchStep_lookup (dets : List BBox) (now : ℚ)
    (acc : TrackerState × List TrackedOut) (m : Nat × Nat) (id : Nat) :
    lookupKey id (TrackingService.matchStep dets now acc m).1.tracked_objects =
      if id = m.1 then
        (lookupKey id acc.1.tracked_objects).map
          (Track.updated (dets.getD m.2 default) now)
      else lookupKey id acc.1.tracked_objects := by
  simp only [TrackingService.matchStep]
  rw [lookupKey_map_update m.1 _ id acc.1.tracked_objects]
  by_cases hid : id = m.1
  · rw [if_pos hid]
    cases lookupKey id acc.1.tracked_objects <;> simp [hid]
  · rw [if_neg hid]
    cases lookupKey id acc.1.tracked_objects <;> simp [hid]

/-- Through the matched-pairs fold, every id reads either its old record or
a record updated at the fold's timestamp with a reset miss counter and an
unchanged state tag. -/
theorem matchFold_lookup (dets : List BBox) (now : ℚ) (ms : List (Nat × Nat))
    (id : Nat) :
    ∀ acc : TrackerState × List TrackedOut,
      lookupKey id
          (ms.foldl (TrackingService.matchStep dets now) acc).1.tracked_objects =
        lookupKey id acc.1.tracked_objects ∨
      ∃ tr tr', lookupKey id acc.1.tracked_objects = some tr ∧
        lookupKey id
            (ms.foldl (TrackingService.matchStep dets now) acc).1.tracked_objects =
          some tr' ∧
        tr'.state = tr.state ∧ tr'.last_seen = now ∧
        tr'.consecutive_misses = 0 := by
  induction ms with
  | nil => intro acc; exact Or.inl rfl
  | cons m ms ih =>
      intro acc
      rw [List.foldl_cons]
      have hstep := matchStep_lookup dets now acc m id
      rcases ih (TrackingService.matchStep dets now acc m) with h | ⟨tr, tr', h1, h2, h3, h4, h5⟩
      · rw [hstep] at h
        by_cases hid : id = m.1
        · rw [if_pos hid] at h
          cases hacc : lookupKey id acc.1.tracked_objects with
          | none =>
              rw [hacc, Option.map_none'] at h
              exact Or.inl h
          | some tr =>
              rw [hacc] at h
              exact Or.inr ⟨tr, _, rfl, h, Track.updated_state _ _ _,
                Track.updated_last_seen _ _ _, Track.updated_misses _ _ _⟩
        · rw [if_neg hid] at h
          exact Or.inl h
      · rw [hstep] at h1
        by_cases hid : id = m.1
        · rw [if_pos hid] at h1
          cases hacc : lookupKey id acc.1.tracked_objects with
          | none =>
              rw [hacc, Option.map_none'] at h1
              exact Option.noConfusion h1
          | some tr0 =>
              rw [hacc, Option.map_some'] at h1
              have h1' := Option.some.inj h1
              refine Or.inr ⟨tr0, tr', rfl, h2, ?_, h4, h5⟩
              rw [h3, ← h1', Track.updated_state]
        · rw [if_neg hid] at h1
          exact Or.inr ⟨tr, tr', h1, h2, h3, h4, h5⟩

/-- Ids not in the matched list read unchanged through the fold. -/
theorem matchFold_lookup_untouched (dets : List BBox) (now : ℚ)
    (ms : List (Nat × Nat)) (id : Nat) (hid : id ∉ ms.map Prod.fst) :
    ∀ acc : TrackerState × List TrackedOut,
      lookupKey id
          (ms.foldl (TrackingService.matchStep dets now) acc).1.tracked_objects =
        lookupKey id acc.1.tracked_objects := by
  induction ms with
  | nil => intro acc; rfl
  | cons m ms ih =>
      intro acc
      rw [List.map_cons] at hid
      have hid1 : id ≠ m.1 := fun he => hid (List.mem_cons.mpr (Or.inl he))
      have hid2 : id ∉ ms.map Prod.fst :=
        fun he => hid (List.mem_cons.mpr (Or.inr he))
      rw [List.foldl_cons, ih hid2, matchStep_lookup, if_neg hid1]

/-- The spec-modelled spawn creates a `Tentative` track. -/
theorem TrackingService.initialize_track_state (det : BBox) (now : ℚ) :
    (TrackingService.initialize_track det now).state = TrackState.Tentative :=
  rfl

/-- The spec-modelled spawn stamps `last_seen` with the spawn time. -/
theorem TrackingService.initialize_track_last_seen (det : BBox) (now : ℚ) :
    (TrackingService.initialize_track det now).last_seen = now := rfl

/-- The id counter never decreases through the spawn fold. -/
theorem spawnFold_next_id_le (dets : List BBox) (now : ℚ) (dis : List Nat) :
    ∀ acc : TrackerState × List TrackedOut,
      acc.1.next_id ≤
        (dis.foldl (TrackingService.spawnStep dets now) acc).1.next_id := by
  induction dis with
  | nil => intro acc; exact le_refl _
  | cons di dis ih =>
      intro acc
      rw [List.foldl_cons]
      exact le_trans (Nat.le_succ _) (ih (TrackingService.spawnStep dets now acc di))

/-- The cleanup stamp is untouched by the spawn fold. -/
theorem spawnFold_last_cleanup (dets : List BBox) (now : ℚ) (dis : List Nat) :
    ∀ acc : TrackerState × List TrackedOut,
      (dis.foldl (TrackingService.spawnStep dets now) acc).1.last_cleanup =
        acc.1.last_cleanup := by
  induction dis with
  | nil => intro acc; rfl
  | cons di dis ih =>
      intro acc
      rw [List.foldl_cons]
      exact ih (TrackingService.spawnStep dets now acc di)

/-- An id already present before the spawn fold reads the same record after
it: spawning only appends fresh entries. -/
theorem spawnFold_lookup_some (dets : List BBox) (now : ℚ) (dis : List Nat)
    (id : Nat) (tr : Track) :
    ∀ acc : TrackerState × List TrackedOut,
      lookupKey id acc.1.tracked_objects = some tr →
      lookupKey id
          (dis.foldl (TrackingService.spawnStep dets now) acc).1.tracked_objects =
        some tr := by
  induction dis with
  | nil => intro acc h; exact h
  | cons di dis ih =>
      intro acc h
      rw [List.foldl_cons]
      refine ih (TrackingService.spawnStep dets now acc di) ?_
      show lookupKey id (acc.1.tracked_objects ++
        [(acc.1.next_id, TrackingService.initialize_track (dets.getD di default) now)]) = some tr
      rw [lookupKey_append, h]
      rfl

/-- Every entry after the spawn fold is either an original entry or a
freshly spawned `Tentative` track stamped at the fold's timestamp with an
id at least the original counter. -/
theorem spawnFold_mem (dets : List BBox) (now : ℚ) (dis : List Nat) :
    ∀ (acc : TrackerState × List TrackedOut) (q : Nat × Track),
      q ∈ (dis.foldl (TrackingService.spawnStep dets now) acc).1.tracked_objects →
      q ∈ acc.1.tracked_objects ∨
        (acc.1.next_id ≤ q.1 ∧ q.2.state = TrackState.Tentative ∧
          q.2.last_seen = now ∧ q.2.consecutive_misses = 0) := by
  induction dis with
  | nil => intro acc q h; exact Or.inl h
  | cons di dis ih =>
      intro acc q h
      rw [List.foldl_cons] at h
      rcases ih (TrackingService.spawnStep dets now acc di) q h with h2 | h2
      · have h3 : q ∈ acc.1.tracked_objects ++
            [(acc.1.next_id,
              TrackingService.initialize_track (dets.getD di default) now)] := h2
        rcases List.mem_append.mp h3 with h4 | h4
        · exact Or.inl h4
        · rcases List.mem_cons.mp h4 with h5 | h5
          · rw [h5]
            exact Or.inr ⟨le_refl _, rfl, rfl, rfl⟩
          · simp at h5
      · refine Or.inr ⟨le_trans (Nat.le_succ _) ?_, h2.2⟩
        exact h2.1

/-- The spawn fold preserves the track-table invariant: ids below the
counter and pairwise distinct. -/
theorem spawnFold_inv (dets : List BBox) (now : ℚ) (dis : List Nat) :
    ∀ acc : TrackerState × List TrackedOut,
      (∀ p ∈ acc.1.tracked_objects, p.1 < acc.1.next_id) →
      (acc.1.tracked_objects.map Prod.fst).Nodup →
      (∀ p ∈ (dis.foldl (TrackingService.spawnStep dets now) acc).1.tracked_objects,
          p.1 < (dis.foldl (TrackingService.spawnStep dets now) acc).1.next_id) ∧
      ((dis.foldl (TrackingService.spawnStep dets now) acc).1.tracked_objects.map
          Prod.fst).Nodup := by
  induction dis with
  | nil => intro acc h1 h2; exact ⟨h1, h2⟩
  | cons di dis ih =>
      intro acc h1 h2
      rw [List.foldl_cons]
      refine ih (TrackingService.spawnStep dets now acc di) ?_ ?_
      · intro p hp
        have hp2 : p ∈ acc.1.tracked_objects ++
            [(acc.1.next_id,
              TrackingService.initialize_track (dets.getD di default) now)] := hp
        rcases List.mem_append.mp hp2 with h4 | h4
        · exact lt_trans (h1 p h4) (Nat.lt_succ_self _)
        · rcases List.mem_cons.mp h4 with h5 | h5
          · rw [h5]
            exact Nat.lt_succ_self _
          · simp at h5
      · show ((acc.1.tracked_objects ++
            [(acc.1.next_id,
              TrackingService.initialize_track (dets.getD di default) now)]).map
              Prod.fst).Nodup
        rw [List.map_append]
        refine List.Nodup.append h2 (List.nodup_singleton _) ?_
        intro x hx hx2
        rcases List.mem_singleton.mp hx2 with h5
        obtain ⟨p, hp, hpx⟩ := List.mem_map.mp hx
        have := h1 p hp
        rw [hpx, h5] at this
        exact lt_irrefl _ this

/-- The lost-tracks step is a no-op on an id with no entry. -/
theorem degradeStep_eq_of_none (now : ℚ) (s : TrackerState) (tid : Nat)
    (hl : lookupTrack tid s.tracked_objects = none) :
    TrackingService.degradeStep now s tid = s := by
  simp only [TrackingService.degradeStep, hl]

/-- The lost-tracks step keeps an entry that is not lost. -/
theorem degradeStep_eq_of_kept (now : ℚ) (s : TrackerState) (tid : Nat)
    (tr : Track) (hl : lookupTrack tid s.tracked_objects = some tr)
    (h : ¬ TrackingService.is_track_lost now tr = true) :
    TrackingService.degradeStep now s tid = s := by
  simp only [TrackingService.degradeStep, hl, if_neg h]

/-- The lost-tracks step removes a lost entry. -/
theorem degradeStep_eq_of_lost (now : ℚ) (s : TrackerState) (tid : Nat)
    (tr : Track) (hl : lookupTrack tid s.tracked_objects = some tr)
    (h : TrackingService.is_track_lost now tr = true) :
    TrackingService.degradeStep now s tid =
      { s with tracked_objects := removeTrack tid s.tracked_objects } := by
  simp only [TrackingService.degradeStep, hl, if_pos h]

/-- One step of the lost-tracks fold, seen through lookup: either nothing
changes, or the stepped id was lost and its entry is removed. -/
theorem degradeStep_lookup (now : ℚ) (s : TrackerState) (tid id : Nat) :
    lookupKey id (TrackingService.degradeStep now s tid).tracked_objects =
        lookupKey id s.tracked_objects ∨
      (id = tid ∧
        lookupKey id (TrackingService.degradeStep now s tid).tracked_objects =
          none ∧
        ∃ tr, lookupKey id s.tracked_objects = some tr ∧
          TrackingService.is_track_lost now tr = true) := by
  cases hl : lookupTrack tid s.tracked_objects with
  | none => rw [degradeStep_eq_of_none now s tid hl]; exact Or.inl rfl
  | some tr =>
      by_cases hlost : TrackingService.is_track_lost now tr = true
      · rw [degradeStep_eq_of_lost now s tid tr hl hlost]
        by_cases hid : id = tid
        · refine Or.inr ⟨hid, ?_, tr, ?_, hlost⟩
          · show lookupKey id (removeTrack tid s.tracked_objects) = none
            rw [removeTrack, lookupKey_removeK, if_pos hid]
          · rw [← hl, lookupTrack, hid]
        · refine Or.inl ?_
          show lookupKey id (removeTrack tid s.tracked_objects) =
            lookupKey id s.tracked_objects
          rw [removeTrack, lookupKey_removeK, if_neg hid]
      · rw [degradeStep_eq_of_kept now s tid tr hl hlost]
        exact Or.inl rfl

/-- The lost-tracks step preserves the id counter and cleanup stamp. -/
theorem degradeStep_state (now : ℚ) (s : TrackerState) (tid : Nat) :
    (TrackingService.degradeStep now s tid).next_id = s.next_id ∧
    (TrackingService.degradeStep now s tid).last_cleanup = s.last_cleanup := by
  cases hl : lookupTrack tid s.tracked_objects with
  | none => rw [degradeStep_eq_of_none now s tid hl]; exact ⟨rfl, rfl⟩
  | some tr =>
      by_cases hlost : TrackingService.is_track_lost now tr = true
      · rw [degradeStep_eq_of_lost now s tid tr hl hlost]; exact ⟨rfl, rfl⟩
      · rw [degradeStep_eq_of_kept now s tid tr hl hlost]; exact ⟨rfl, rfl⟩

/-- The lost-tracks step only ever removes entries. -/
theorem degradeStep_mem (now : ℚ) (s : TrackerState) (tid : Nat)
    (q : Nat × Track)
    (h : q ∈ (TrackingService.degradeStep now s tid).tracked_objects) :
    q ∈ s.tracked_objects := by
  cases hl : lookupTrack tid s.tracked_objects with
  | none => rw [degradeStep_eq_of_none now s tid hl] at h; exact h
  | some tr =>
      by_cases hlost : TrackingService.is_track_lost now tr = true
      · rw [degradeStep_eq_of_lost now s tid tr hl hlost] at h
        exact List.mem_of_mem_filter h
      · rw [degradeStep_eq_of_kept now s tid tr hl hlost] at h
        exact h

/-- A record readable after the lost-tracks fold was readable, unchanged,
before it. -/
theorem degradeFold_lookup_some (now : ℚ) (tids : List Nat) (id : Nat)
    (tr : Track) :
    ∀ s : TrackerState,
      lookupKey id
          (tids.foldl (TrackingService.degradeStep now) s).tracked_objects =
        some tr →
      lookupKey id s.tracked_objects = some tr := by
  induction tids with
  | nil => intro s h; exact h
  | cons tid tids ih =>
      intro s h
      rw [List.foldl_cons] at h
      have h2 := ih (TrackingService.degradeStep now s tid) h
      rcases degradeStep_lookup now s tid id with h3 | ⟨_, h3, _⟩
      · rw [← h3]; exact h2
      · rw [h3] at h2; exact Option.noConfusion h2

/-- An id whose record disappears across the lost-tracks fold either had no
record, or its record was lost (older than `max_track_age`). -/
theorem degradeFold_none (now : ℚ) (tids : List Nat) (id : Nat) :
    ∀ s : TrackerState,
      lookupKey id
          (tids.foldl (TrackingService.degradeStep now) s).tracked_objects =
        none →
      lookupKey id s.tracked_objects = none ∨
      ∃ tr, lookupKey id s.tracked_objects = some tr ∧
        TrackingService.is_track_lost now tr = true := by
  induction tids with
  | nil => intro s h; exact Or.inl h
  | cons tid tids ih =>
      intro s h
      rw [List.foldl_cons] at h
      rcases ih (TrackingService.degradeStep now s tid) h with h2 | ⟨tr, h2, h3⟩
      · rcases degradeStep_lookup now s tid id with h3 | ⟨_, _, tr, h4, h5⟩
        · rw [← h3]; exact Or.inl h2
        · exact Or.inr ⟨tr, h4, h5⟩
      · rcases degradeStep_lookup now s tid id with h4 | ⟨_, h4, _⟩
        · rw [h4] at h2
          exact Or.inr ⟨tr, h2, h3⟩
        · rw [h4] at h2
          exact Option.noConfusion h2

/-- The lost-tracks fold preserves the id counter and cleanup stamp. -/
theorem degradeFold_state (now : ℚ) (tids : List Nat) :
    ∀ s : TrackerState,
      (tids.foldl (TrackingService.degradeStep now) s).next_id = s.next_id ∧
      (tids.foldl (TrackingService.degradeStep now) s).last_cleanup =
        s.last_cleanup := by
  induction tids with
  | nil => intro s; exact ⟨rfl, rfl⟩
  | cons tid tids ih =>
      intro s
      rw [List.foldl_cons]
      exact ⟨((ih _).1).trans (degradeStep_state now s tid).1,
        ((ih _).2).trans (degradeStep_state now s tid).2⟩

/-- The lost-tracks fold only ever removes entries. -/
theorem degradeFold_mem (now : ℚ) (tids : List Nat) :
    ∀ (s : TrackerState) (q : Nat × Track),
      q ∈ (tids.foldl (TrackingService.degradeStep now) s).tracked_objects →
      q ∈ s.tracked_objects := by
  induction tids with
  | nil => intro s q h; exact h
  | cons tid tids ih =>
      intro s q h
      rw [List.foldl_cons] at h
      exact degradeStep_mem now s tid q (ih _ q h)

/-- The lost-tracks fold keeps the keys pairwise distinct. -/
theorem degradeFold_nodup (now : ℚ) (tids : List Nat) :
    ∀ s : TrackerState,
      (s.tracked_objects.map Prod.fst).Nodup →
      ((tids.foldl (TrackingService.degradeStep now) s).tracked_objects.map
          Prod.fst).Nodup := by
  induction tids with
  | nil => intro s h; exact h
  | cons tid tids ih =>
      intro s h
      rw [List.foldl_cons]
      refine ih _ ?_
      cases hl : lookupTrack tid s.tracked_objects with
      | none => rw [degradeStep_eq_of_none now s tid hl]; exact h
      | some tr =>
          by_cases hlost : TrackingService.is_track_lost now tr = true
          · rw [degradeStep_eq_of_lost now s tid tr hl hlost]
            exact List.Nodup.sublist
              ((List.filter_sublist s.tracked_objects).map Prod.fst) h
          · rw [degradeStep_eq_of_kept now s tid tr hl hlost]; exact h

/-- A record surviving a filter (distinct keys) was there before it. -/
theorem lookupKey_filter_some {β : Type} {q : Nat × β → Bool} {k : Nat}
    {l : List (Nat × β)} {v : β} (hnd : (l.map Prod.fst).Nodup)
    (h : lookupKey k (l.filter q) = some v) : lookupKey k l = some v := by
  rw [lookupKey_filter q k l hnd] at h
  cases hl : lookupKey k l with
  | none => rw [hl] at h; exact Option.noConfusion h
  | some w =>
      rw [hl] at h
      have h2 : (if q (k, w) then some w else none) = some v := h
      by_cases hq : q (k, w) = true
      · rw [if_pos hq] at h2
        exact h2
      · rw [if_neg hq] at h2
        exact Option.noConfusion h2

/-- A record absent after a filter (distinct keys) was absent before it or
was dropped by the filter. -/
theorem lookupKey_filter_none {β : Type} {q : Nat × β → Bool} {k : Nat}
    {l : List (Nat × β)} (hnd : (l.map Prod.fst).Nodup)
    (h : lookupKey k (l.filter q) = none) :
    lookupKey k l = none ∨ ∃ v, lookupKey k l = some v ∧ q (k, v) = false := by
  rw [lookupKey_filter q k l hnd] at h
  cases hl : lookupKey k l with
  | none => exact Or.inl rfl
  | some v =>
      rw [hl] at h
      have h2 : (if q (k, v) then some v else none) = none := h
      by_cases hq : q (k, v) = true
      · rw [if_pos hq] at h2
        exact Option.noConfusion h2
      · exact Or.inr ⟨v, rfl, by simpa using hq⟩

/-- The predicted-track list carries exactly the live track ids. -/
theorem predict_tracks_keys (st : TrackerState) :
    (TrackingService.predict_tracks st).map Prod.fst =
      st.tracked_objects.map Prod.fst := by
  rw [TrackingService.predict_tracks, List.map_map]
  apply List.map_congr_left
  intro p _
  rfl

/-- The matched phase preserves the id counter, cleanup stamp and key list. -/
theorem updateMatched_state (dets : List BBox) (now : ℚ) (st : TrackerState) :
    (TrackingService.updateMatched dets now st).1.next_id = st.next_id ∧
    (TrackingService.updateMatched dets now st).1.last_cleanup =
      st.last_cleanup ∧
    (TrackingService.updateMatched dets now st).1.tracked_objects.map
      Prod.fst = st.tracked_objects.map Prod.fst :=
  matchFold_state dets now _ (st, [])

/-- Lookup through the matched phase: old record, or updated at `now`. -/
theorem updateMatched_lookup (dets : List BBox) (now : ℚ) (st : TrackerState)
    (id : Nat) :
    lookupKey id (TrackingService.updateMatched dets now st).1.tracked_objects =
        lookupKey id st.tracked_objects ∨
      ∃ tr tr', lookupKey id st.tracked_objects = some tr ∧
        lookupKey id
            (TrackingService.updateMatched dets now st).1.tracked_objects =
          some tr' ∧
        tr'.state = tr.state ∧ tr'.last_seen = now ∧
        tr'.consecutive_misses = 0 :=
  matchFold_lookup dets now _ id (st, [])

/-- Lookup of an unmatched id through the matched phase is unchanged. -/
theorem updateMatched_lookup_untouched (dets : List BBox) (now : ℚ)
    (st : TrackerState) (id : Nat)
    (hid : id ∉ (TrackingService.associate_detections dets
      (TrackingService.predict_tracks st)).1.map Prod.fst) :
    lookupKey id (TrackingService.updateMatched dets now st).1.tracked_objects =
      lookupKey id st.tracked_objects :=
  matchFold_lookup_untouched dets now _ id hid (st, [])

/-- A record present after the matched phase survives the spawn phase. -/
theorem updateSpawned_lookup_some (dets : List BBox) (now : ℚ)
    (st : TrackerState) (id : Nat) (tr : Track)
    (h : lookupKey id
        (TrackingService.updateMatched dets now st).1.tracked_objects =
      some tr) :
    lookupKey id (TrackingService.updateSpawned dets now st).1.tracked_objects =
      some tr :=
  spawnFold_lookup_some dets now _ id tr _ h

/-- The id counter never decreases across the spawn phase. -/
theorem updateSpawned_next_id_le (dets : List BBox) (now : ℚ)
    (st : TrackerState) :
    (TrackingService.updateMatched dets now st).1.next_id ≤
      (TrackingService.updateSpawned dets now st).1.next_id :=
  spawnFold_next_id_le dets now _ _

/-- Entries after the spawn phase: matched-phase entries or fresh spawns. -/
theorem updateSpawned_mem (dets : List BBox) (now : ℚ) (st : TrackerState)
    (q : Nat × Track)
    (h : q ∈ (TrackingService.updateSpawned dets now st).1.tracked_objects) :
    q ∈ (TrackingService.updateMatched dets now st).1.tracked_objects ∨
      ((TrackingService.updateMatched dets now st).1.next_id ≤ q.1 ∧
        q.2.state = TrackState.Tentative ∧ q.2.last_seen = now ∧
        q.2.consecutive_misses = 0) :=
  spawnFold_mem dets now _ _ q h

/-- The spawn phase preserves the track-table invariant. -/
theorem updateSpawned_inv (dets : List BBox) (now : ℚ) (st : TrackerState)
    (h1 : ∀ p ∈ (TrackingService.updateMatched dets now st).1.tracked_objects,
      p.1 < (TrackingService.updateMatched dets now st).1.next_id)
    (h2 : ((TrackingService.updateMatched dets now st).1.tracked_objects.map
      Prod.fst).Nodup) :
    (∀ p ∈ (TrackingService.updateSpawned dets now st).1.tracked_objects,
        p.1 < (TrackingService.updateSpawned dets now st).1.next_id) ∧
    ((TrackingService.updateSpawned dets now st).1.tracked_objects.map
      Prod.fst).Nodup :=
  spawnFold_inv dets now _ _ h1 h2

/-- A record readable after the lost-tracks phase was readable before it. -/
theorem updateDegraded_lookup_some (dets : List BBox) (now : ℚ)
    (st : TrackerState) (id : Nat) (tr : Track)
    (h : lookupKey id
        (TrackingService.updateDegraded dets now st).tracked_objects =
      some tr) :
    lookupKey id (TrackingService.updateSpawned dets now st).1.tracked_objects =
      some tr :=
  degradeFold_lookup_some now _ id tr _ h

/-- An id lost across the lost-tracks phase was aged or absent. -/
theorem updateDegraded_none (dets : List BBox) (now : ℚ) (st : TrackerState)
    (id : Nat)
    (h : lookupKey id
        (TrackingService.updateDegraded dets now st).tracked_objects = none) :
    lookupKey id (TrackingService.updateSpawned dets now st).1.tracked_objects =
        none ∨
      ∃ tr, lookupKey id
          (TrackingService.updateSpawned dets now st).1.tracked_objects =
        some tr ∧ TrackingService.is_track_lost now tr = true :=
  degradeFold_none now _ id _ h

/-- The lost-tracks phase preserves the id counter and cleanup stamp. -/
theorem updateDegraded_state (dets : List BBox) (now : ℚ) (st : TrackerState) :
    (TrackingService.updateDegraded dets now st).next_id =
      (TrackingService.updateSpawned dets now st).1.next_id ∧
    (TrackingService.updateDegraded dets now st).last_cleanup =
      (TrackingService.updateSpawned dets now st).1.last_cleanup :=
  degradeFold_state now _ _

/-- The lost-tracks phase only ever removes entries. -/
theorem updateDegraded_mem (dets : List BBox) (now : ℚ) (st : TrackerState)
    (q : Nat × Track)
    (h : q ∈ (TrackingService.updateDegraded dets now st).tracked_objects) :
    q ∈ (TrackingService.updateSpawned dets now st).1.tracked_objects :=
  degradeFold_mem now _ _ q h

/-- The lost-tracks phase keeps keys pairwise distinct. -/
theorem updateDegraded_nodup (dets : List BBox) (now : ℚ) (st : TrackerState)
    (h : ((TrackingService.updateSpawned dets now st).1.tracked_objects.map
      Prod.fst).Nodup) :
    ((TrackingService.updateDegraded dets now st).tracked_objects.map
      Prod.fst).Nodup :=
  degradeFold_nodup now _ _ h

/-- When the periodic cleanup fires, it filters aged tracks and stamps the
cleanup time. -/
theorem updateCleaned_eq_pos (dets : List BBox) (now : ℚ) (st : TrackerState)
    (hc : TrackingService.cleanup_interval <
      now - (TrackingService.updateDegraded dets now st).last_cleanup) :
    TrackingService.updateCleaned dets now st =
      { TrackingService.cleanup_old_tracks now
          (TrackingService.updateDegraded dets now st) with
        last_cleanup := now } := by
  simp only [TrackingService.updateCleaned]
  rw [if_pos hc]

/-- When the periodic cleanup does not fire, the state passes through. -/
theorem updateCleaned_eq_neg (dets : List BBox) (now : ℚ) (st : TrackerState)
    (hc : ¬ TrackingService.cleanup_interval <
      now - (TrackingService.updateDegraded dets now st).last_cleanup) :
    TrackingService.updateCleaned dets now st =
      TrackingService.updateDegraded dets now st := by
  simp only [TrackingService.updateCleaned]
  rw [if_neg hc]

/-- The cleanup phase preserves the id counter. -/
theorem updateCleaned_next_id (dets : List BBox) (now : ℚ)
    (st : TrackerState) :
    (TrackingService.updateCleaned dets now st).next_id =
      (TrackingService.updateDegraded dets now st).next_id := by
  by_cases hc : TrackingService.cleanup_interval <
      now - (TrackingService.updateDegraded dets now st).last_cleanup
  · rw [updateCleaned_eq_pos dets now st hc]
    rfl
  · rw [updateCleaned_eq_neg dets now st hc]

/-- The cleanup phase only ever removes entries. -/
theorem updateCleaned_mem (dets : List BBox) (now : ℚ) (st : TrackerState)
    (q : Nat × Track)
    (h : q ∈ (TrackingService.updateCleaned dets now st).tracked_objects) :
    q ∈ (TrackingService.updateDegraded dets now st).tracked_objects := by
  by_cases hc : TrackingService.cleanup_interval <
      now - (TrackingService.updateDegraded dets now st).last_cleanup
  · rw [updateCleaned_eq_pos dets now st hc] at h
    exact List.mem_of_mem_filter h
  · rw [updateCleaned_eq_neg dets now st hc] at h
    exact h

/-- The cleanup phase keeps keys pairwise distinct. -/
theorem updateCleaned_nodup (dets : List BBox) (now : ℚ) (st : TrackerState)
    (h : ((TrackingService.updateDegraded dets now st).tracked_objects.map
      Prod.fst).Nodup) :
    ((TrackingService.updateCleaned dets now st).tracked_objects.map
      Prod.fst).Nodup := by
  by_cases hc : TrackingService.cleanup_interval <
      now - (TrackingService.updateDegraded dets now st).last_cleanup
  · rw [updateCleaned_eq_pos dets now st hc]
    exact List.Nodup.sublist
      ((List.filter_sublist _).map Prod.fst) h
  · rw [updateCleaned_eq_neg dets now st hc]
    exact h

/-- An id lost across the cleanup phase was absent before it or aged. -/
theorem updateCleaned_none (dets : List BBox) (now : ℚ) (st : TrackerState)
    (id : Nat)
    (hnd3 : ((TrackingService.updateDegraded dets now st).tracked_objects.map
      Prod.fst).Nodup)
    (h : lookupKey id
        (TrackingService.updateCleaned dets now st).tracked_objects = none) :
    lookupKey id (TrackingService.updateDegraded dets now st).tracked_objects =
        none ∨
      ∃ tr, lookupKey id
          (TrackingService.updateDegraded dets now st).tracked_objects =
        some tr ∧ TrackingService.is_track_lost now tr = true := by
  by_cases hc : TrackingService.cleanup_interval <
      now - (TrackingService.updateDegraded dets now st).last_cleanup
  · rw [updateCleaned_eq_pos dets now st hc] at h
    have h' : lookupKey id
        ((TrackingService.updateDegraded dets now st).tracked_objects.filter
          (fun p => ¬ TrackingService.is_track_lost now p.2)) = none := h
    rcases lookupKey_filter_none hnd3 h' with h2 | ⟨v, h2, h3⟩
    · exact Or.inl h2
    · refine Or.inr ⟨v, h2, ?_⟩
      simpa using h3
  · rw [updateCleaned_eq_neg dets now st hc] at h
    exact Or.inl h

/-- A record readable after the cleanup phase was readable before it. -/
theorem updateCleaned_lookup_some (dets : List BBox) (now : ℚ)
    (st : TrackerState) (id : Nat) (tr : Track)
    (hnd3 : ((TrackingService.updateDegraded dets now st).tracked_objects.map
      Prod.fst).Nodup)
    (h : lookupKey id
        (TrackingService.updateCleaned dets now st).tracked_objects =
      some tr) :
    lookupKey id (TrackingService.updateDegraded dets now st).tracked_objects =
      some tr := by
  by_cases hc : TrackingService.cleanup_interval <
      now - (TrackingService.updateDegraded dets now st).last_cleanup
  · rw [updateCleaned_eq_pos dets now st hc] at h
    have h' : lookupKey id
        ((TrackingService.updateDegraded dets now st).tracked_objects.filter
          (fun p => ¬ TrackingService.is_track_lost now p.2)) = some tr := h
    exact lookupKey_filter_some hnd3 h'
  · rw [updateCleaned_eq_neg dets now st hc] at h
    exact h

/-- C1 amended.  The lifecycle the source actually implements: every
reachable track is permanently `Tentative` — no update ever produces a
`Confirmed` or `Lost` tag and no `n_init`/`max_misses` machinery exists; the
fresh-id counter never decreases and every newly created track id is at
least the counter's old value, so a removed id is never reused; and a track
present before an update whose record is gone afterwards was aged: more
than `max_track_age` (5 s) had elapsed since its last matched update. -/
theorem track_lifecycle (dets : List BBox) (now : ℚ) (st : TrackerState)
    (hInv : TrackerInv st) :
    TrackerInv (TrackingService.update dets now st).1 ∧
    st.next_id ≤ (TrackingService.update dets now st).1.next_id ∧
    (∀ p ∈ (TrackingService.update dets now st).1.tracked_objects,
        p.1 ∉ st.tracked_objects.map Prod.fst → st.next_id ≤ p.1) ∧
    (∀ p ∈ st.tracked_objects,
        lookupKey p.1 (TrackingService.update dets now st).1.tracked_objects =
          none →
        TrackingService.max_track_age < now - p.2.last_seen) := by
  obtain ⟨hent, hnd⟩ := hInv
  by_cases hd : dets.isEmpty
  · have hupd : TrackingService.update dets now st = (st, []) := by
      simp [TrackingService.update, hd]
    rw [hupd]
    refine ⟨⟨hent, hnd⟩, le_refl _, ?_, ?_⟩
    · intro p hp hnotin
      exact absurd (List.mem_map_of_mem Prod.fst hp) hnotin
    · intro p hp hnone
      have hsome : lookupKey p.1 st.tracked_objects = some p.2 :=
        lookupKey_of_mem_nodup hnd hp
      rw [hsome] at hnone
      exact Option.noConfusion hnone
  · have hupd : TrackingService.update dets now st =
        (TrackingService.updateCleaned dets now st,
         (TrackingService.updateSpawned dets now st).2) := by
      simp [TrackingService.update, hd]
    rw [hupd]
    have hm := updateMatched_state dets now st
    have hent1 : ∀ p ∈ (TrackingService.updateMatched dets now
        st).1.tracked_objects,
        p.1 < (TrackingService.updateMatched dets now st).1.next_id := by
      intro p hp
      have hk : p.1 ∈ st.tracked_objects.map Prod.fst := by
        rw [← hm.2.2]
        exact List.mem_map_of_mem Prod.fst hp
      obtain ⟨p0, hp0, hp0e⟩ := List.mem_map.mp hk
      rw [hm.1, ← hp0e]
      exact (hent p0 hp0).2
    have hnd1 : ((TrackingService.updateMatched dets now
        st).1.tracked_objects.map Prod.fst).Nodup := by
      rw [hm.2.2]
      exact hnd
    have hinv2 := updateSpawned_inv dets now st hent1 hnd1
    have hnd3 : ((TrackingService.updateDegraded dets now
        st).tracked_objects.map Prod.fst).Nodup :=
      updateDegraded_nodup dets now st hinv2.2
    have hnd4 := updateCleaned_nodup dets now st hnd3
    have hnid : st.next_id ≤
        (TrackingService.updateCleaned dets now st).next_id := by
      rw [updateCleaned_next_id, (updateDegraded_state dets now st).1, ← hm.1]
      exact updateSpawned_next_id_le dets now st
    have hstate1 : ∀ p ∈ (TrackingService.updateMatched dets now
        st).1.tracked_objects, p.2.state = TrackState.Tentative := by
      intro p hp
      have hlk := lookupKey_of_mem_nodup hnd1 hp
      rcases updateMatched_lookup dets now st p.1 with h | ⟨tr, tr', h1, h2, h3, _, _⟩
      · rw [hlk] at h
        exact (hent _ (mem_of_lookupKey_some h.symm)).1
      · rw [hlk] at h2
        have hpe : p.2 = tr' := Option.some.inj h2
        rw [hpe, h3]
        exact (hent _ (mem_of_lookupKey_some h1)).1
    refine ⟨⟨?_, hnd4⟩, hnid, ?_, ?_⟩
    · intro p hp
      have hp3 := updateCleaned_mem dets now st p hp
      have hp2 := updateDegraded_mem dets now st p hp3
      constructor
      · rcases updateSpawned_mem dets now st p hp2 with hq | hq
        · exact hstate1 p hq
        · exact hq.2.1
      · have hlt : p.1 < (TrackingService.updateSpawned dets now
            st).1.next_id := hinv2.1 p hp2
        rw [updateCleaned_next_id, (updateDegraded_state dets now st).1]
        exact hlt
    · intro p hp hnotin
      have hp3 := updateCleaned_mem dets now st p hp
      have hp2 := updateDegraded_mem dets now st p hp3
      rcases updateSpawned_mem dets now st p hp2 with hq | hq
      · exfalso
        apply hnotin
        rw [← hm.2.2]
        exact List.mem_map_of_mem Prod.fst hq
      · rw [← hm.1]
        exact hq.1
    · intro p hp hnone
      have hst : lookupKey p.1 st.tracked_objects = some p.2 :=
        lookupKey_of_mem_nodup hnd hp
      have hm1 : ∃ tr1, lookupKey p.1 (TrackingService.updateMatched dets now
          st).1.tracked_objects = some tr1 ∧
          (tr1 = p.2 ∨ tr1.last_seen = now) := by
        rcases updateMatched_lookup dets now st p.1 with h | ⟨tr, tr', h1, h2, _, h4, _⟩
        · exact ⟨p.2, by rw [h]; exact hst, Or.inl rfl⟩
        · exact ⟨tr', h2, Or.inr h4⟩
      obtain ⟨tr1, htr1, htr1e⟩ := hm1
      have hs2 : lookupKey p.1 (TrackingService.updateSpawned dets now
          st).1.tracked_objects = some tr1 :=
        updateSpawned_lookup_some dets now st p.1 tr1 htr1
      have hlost : ∃ tr2, lookupKey p.1 (TrackingService.updateSpawned dets
          now st).1.tracked_objects = some tr2 ∧
          TrackingService.is_track_lost now tr2 = true := by
        rcases updateCleaned_none dets now st p.1 hnd3 hnone with h3 | ⟨tr3, h3, h4⟩
        · rcases updateDegraded_none dets now st p.1 h3 with h5 | h5
          · rw [hs2] at h5
            exact Option.noConfusion h5
          · exact h5
        · exact ⟨tr3, updateDegraded_lookup_some dets now st p.1 tr3 h3, h4⟩
      obtain ⟨tr2, htr2, htr2lost⟩ := hlost
      rw [hs2] at htr2
      have htr12 : tr1 = tr2 := Option.some.inj htr2
      rw [← htr12] at htr2lost
      rcases htr1e with he | he
      · rw [he] at htr2lost
        simpa [TrackingService.is_track_lost] using htr2lost
      · exfalso
        have h6 : TrackingService.max_track_age < now - tr1.last_seen := by
          simpa [TrackingService.is_track_lost] using htr2lost
        rw [he, sub_self] at h6
        norm_num [TrackingService.max_track_age] at h6

/-- C1 witness: the lifecycle theorem applied to a concrete one-track state
receiving one matching detection at time 1. -/
theorem track_lifecycle_witness :
    TrackerInv (TrackingService.update [boxA] 1 c3State).1 ∧
    c3State.next_id ≤ (TrackingService.update [boxA] 1 c3State).1.next_id :=
  ⟨(track_lifecycle [boxA] 1 c3State ⟨by decide, by decide⟩).1,
   (track_lifecycle [boxA] 1 c3State ⟨by decide, by decide⟩).2.1⟩

set_option maxHeartbeats 2000000 in
/-- C1 counterexample.  With `n_init = 3` the claim demands
`Tentative → Confirmed` after three consecutive matched updates.  Track 0,
spawned at time 0 and matched (same output id 0) in each of the three
following updates, is still `Tentative`: the source has no confirmation
transition at all. -/
theorem tentative_never_confirmed_counterexample :
    c1Step1.2.map TrackedOut.track_id = [0] ∧
    c1Step2.2.map TrackedOut.track_id = [0] ∧
    c1Step3.2.map TrackedOut.track_id = [0] ∧
    (lookupKey 0 c1Step3.1.tracked_objects).map Track.state =
      some TrackState.Tentative ∧
    TrackState.Tentative ≠ TrackState.Confirmed := by
  refine ⟨?_, ?_, ?_, ?_, by decide⟩ <;>
    norm_num [c1Start, c1Step0, c1Step1, c1Step2, c1Step3, boxA,
      TrackingService.update, TrackingService.updateMatched,
      TrackingService.updateSpawned, TrackingService.updateDegraded,
      TrackingService.updateCleaned, TrackingService.cleanup_old_tracks,
      TrackingService.predict_tracks, TrackingService.associate_detections,
      TrackingService.costMatrix, TrackingService.calculate_iou,
      TrackingService.iou_eps, TrackingService.iou_threshold,
      linear_sum_assignment, maximalPairings, allPairings, assignmentCost,
      pairCost, List.range_succ, TrackingService.matchStep,
      TrackingService.spawnStep, TrackingService.degradeStep,
      TrackingService.cleanup_interval, TrackingService.initialize_track,
      TrackingService.get_bbox_center, TrackingService.is_track_lost,
      TrackingService.max_track_age, lookupKey, lookupTrack, removeTrack,
      Track.updated, TrackingService.calculate_velocity]

/-- Key distinctness survives through the lost-tracks phase, from the
tracker invariant. -/
theorem updateDegraded_nodup_of_inv (dets : List BBox) (now : ℚ)
    (st : TrackerState) (hInv : TrackerInv st) :
    ((TrackingService.updateDegraded dets now st).tracked_objects.map
      Prod.fst).Nodup := by
  obtain ⟨hent, hnd⟩ := hInv
  have hm := updateMatched_state dets now st
  have hent1 : ∀ p ∈ (TrackingService.updateMatched dets now
      st).1.tracked_objects,
      p.1 < (TrackingService.updateMatched dets now st).1.next_id := by
    intro p hp
    have hk : p.1 ∈ st.tracked_objects.map Prod.fst := by
      rw [← hm.2.2]
      exact List.mem_map_of_mem Prod.fst hp
    obtain ⟨p0, hp0, hp0e⟩ := List.mem_map.mp hk
    rw [hm.1, ← hp0e]
    exact (hent p0 hp0).2
  have hnd1 : ((TrackingService.updateMatched dets now
      st).1.tracked_objects.map Prod.fst).Nodup := by
    rw [hm.2.2]
    exact hnd
  exact updateDegraded_nodup dets now st
    (updateSpawned_inv dets now st hent1 hnd1).2

/-- C3 amended.  An update with an empty detection list returns immediately
with the state untouched: no prediction step runs, no miss counter changes,
no lifecycle rule is applied.  And in any update, a track left unmatched by
the association whose record survives is entirely unchanged — in
particular its miss counter is not incremented (the source has no increment
anywhere; unmatched tracks are only ever removed once aged past
`max_track_age`). -/
theorem empty_update_and_unmatched_misses (st : TrackerState)
    (dets : List BBox) (now : ℚ) (id : Nat) (tr tr' : Track)
    (hInv : TrackerInv st)
    (hid : id ∈ (TrackingService.associate_detections dets
      (TrackingService.predict_tracks st)).2.2)
    (htr : lookupKey id st.tracked_objects = some tr)
    (htr' : lookupKey id
      (TrackingService.update dets now st).1.tracked_objects = some tr') :
    TrackingService.update [] now st = (st, []) ∧
    tr' = tr ∧ tr'.consecutive_misses = tr.consecutive_misses := by
  obtain ⟨hent, hnd⟩ := hInv
  have hempty : TrackingService.update [] now st = (st, []) := rfl
  refine ⟨hempty, ?_⟩
  suffices h : tr' = tr by
    exact ⟨h, by rw [h]⟩
  by_cases hd : dets.isEmpty
  · have hupd : TrackingService.update dets now st = (st, []) := by
      simp [TrackingService.update, hd]
    rw [hupd] at htr'
    rw [htr] at htr'
    exact (Option.some.inj htr').symm
  · have hupd : TrackingService.update dets now st =
        (TrackingService.updateCleaned dets now st,
         (TrackingService.updateSpawned dets now st).2) := by
      simp [TrackingService.update, hd]
    rw [hupd] at htr'
    have hmemst := mem_of_lookupKey_some htr
    have hpne : TrackingService.predict_tracks st ≠ [] := by
      intro h
      rw [TrackingService.predict_tracks, List.map_eq_nil_iff] at h
      rw [h] at hmemst
      exact List.not_mem_nil _ hmemst
    have hdne : dets ≠ [] := by
      intro h
      exact hd (by rw [h]; rfl)
    have hndp : ((TrackingService.predict_tracks st).map Prod.fst).Nodup := by
      rw [predict_tracks_keys]
      exact hnd
    have hgate := (gating dets (TrackingService.predict_tracks st)
      hdne hpne hndp).2.2.2 id
    have hnotin : id ∉ (TrackingService.associate_detections dets
        (TrackingService.predict_tracks st)).1.map Prod.fst :=
      (hgate.mp hid).2
    have h1 : lookupKey id (TrackingService.updateMatched dets now
        st).1.tracked_objects = some tr := by
      rw [updateMatched_lookup_untouched dets now st id hnotin]
      exact htr
    have h2 := updateSpawned_lookup_some dets now st id tr h1
    have hnd3 := updateDegraded_nodup_of_inv dets now st ⟨hent, hnd⟩
    have h3 := updateCleaned_lookup_some dets now st id tr' hnd3 htr'
    have h4 := updateDegraded_lookup_some dets now st id tr' h3
    rw [h2] at h4
    exact (Option.some.inj h4).symm

set_option maxHeartbeats 1000000 in
/-- C3 witness: the theorem applied to the one-track state `c3State` with a
gated-out (disjoint) detection at time 3, where track 0 is unmatched and
survives unchanged. -/
theorem empty_update_and_unmatched_misses_witness :
    TrackingService.update [] 3 c3State = (c3State, []) ∧
    c3Track = c3Track ∧
    c3Track.consecutive_misses = c3Track.consecutive_misses :=
  empty_update_and_unmatched_misses c3State [farBox] 3 0 c3Track c3Track
    ⟨by decide, by decide⟩
    (by norm_num [c3State, c3Track, farBox, boxA,
      TrackingService.predict_tracks, TrackingService.associate_detections,
      TrackingService.costMatrix, TrackingService.calculate_iou,
      TrackingService.iou_eps, TrackingService.iou_threshold,
      linear_sum_assignment, maximalPairings, allPairings, assignmentCost,
      pairCost, List.range_succ])
    rfl
    (by norm_num [c3State, c3Track, farBox, boxA,
      TrackingService.update, TrackingService.updateMatched,
      TrackingService.updateSpawned, TrackingService.updateDegraded,
      TrackingService.updateCleaned, TrackingService.cleanup_old_tracks,
      TrackingService.predict_tracks, TrackingService.associate_detections,
      TrackingService.costMatrix, TrackingService.calculate_iou,
      TrackingService.iou_eps, TrackingService.iou_threshold,
      linear_sum_assignment, maximalPairings, allPairings, assignmentCost,
      pairCost, List.range_succ, TrackingService.matchStep,
      TrackingService.spawnStep, TrackingService.degradeStep,
      TrackingService.cleanup_interval, TrackingService.initialize_track,
      TrackingService.get_bbox_center, TrackingService.is_track_lost,
      TrackingService.max_track_age, lookupKey, lookupTrack, removeTrack,
      Track.updated, TrackingService.calculate_velocity])

set_option maxHeartbeats 1000000 in
/-- C3 counterexample.  At time 10 the sole track (last seen at 0) is well
past `max_track_age`, yet the empty-detections update returns with the
state untouched: no prediction-only step, no miss increment, no lifecycle
transition.  And in a non-empty update at time 3 whose only detection is
disjoint (track 0 unmatched, fourth conjunct), the surviving track's miss
counter is still 0, not incremented. -/
theorem empty_update_no_prediction_counterexample :
    TrackingService.update [] 10 c3State = (c3State, []) ∧
    TrackingService.is_track_lost 10 c3Track = true ∧
    (lookupKey 0
        (TrackingService.update [farBox] 3 c3State).1.tracked_objects).map
      Track.consecutive_misses = some 0 ∧
    0 ∈ (TrackingService.associate_detections [farBox]
      (TrackingService.predict_tracks c3State)).2.2 := by
  refine ⟨rfl, ?_, ?_, ?_⟩ <;>
    norm_num [c3State, c3Track, farBox, boxA,
      TrackingService.update, TrackingService.updateMatched,
      TrackingService.updateSpawned, TrackingService.updateDegraded,
      TrackingService.updateCleaned, TrackingService.cleanup_old_tracks,
      TrackingService.predict_tracks, TrackingService.associate_detections,
      TrackingService.costMatrix, TrackingService.calculate_iou,
      TrackingService.iou_eps, TrackingService.iou_threshold,
      linear_sum_assignment, maximalPairings, allPairings, assignmentCost,
      pairCost, List.range_succ, TrackingService.matchStep,
      TrackingService.spawnStep, TrackingService.degradeStep,
      TrackingService.cleanup_interval, TrackingService.initialize_track,
      TrackingService.get_bbox_center, TrackingService.is_track_lost,
      TrackingService.max_track_age, lookupKey, lookupTrack, removeTrack,
      Track.updated, TrackingService.calculate_velocity]

/-- C2 counterexample.  The claim demands an explicit `DetectionFailed`
outcome.  On a Detector error, `_detect_batch` resolves each deferred
handle with the same value a successful inference of an object-free frame
produces — a plain empty list — and the 5-second ceiling timeout path of
`detect` likewise returns the value of a successful empty resolution: no
distinguished failure value exists anywhere in the result type. -/
theorem detection_failed_not_explicit_counterexample :
    ObjectDetectionService.detect_batch (1/2) 1 (Except.error ()) =
      ObjectDetectionService.detect_batch (1/2) 1 (Except.ok [[]]) ∧
    ObjectDetectionService.detect DetectEvent.ceiling_timeout =
      ObjectDetectionService.detect (DetectEvent.resolved []) :=
  ⟨rfl, rfl⟩

/-- C2 amended.  If the Detector call fails, `_detect_batch` catches the
error and yields one result per frame — so every deferred handle in the
batch resolves — but each resolution is the plain empty detection list, not
a distinguished `DetectionFailed` value; the caller-side 5-second
`asyncio.wait_for` ceiling and the outer exception handler also return the
empty list, while a resolved future returns its slice unchanged. -/
theorem detect_failure_resolution (threshold : ℚ) (n : Nat) :
    (ObjectDetectionService.detect_batch threshold n
      (Except.error ())).length = n ∧
    (∀ res ∈ ObjectDetectionService.detect_batch threshold n
      (Except.error ()), res = []) ∧
    ObjectDetectionService.detect DetectEvent.ceiling_timeout = [] ∧
    ObjectDetectionService.detect DetectEvent.errored = [] ∧
    (∀ r, ObjectDetectionService.detect (DetectEvent.resolved r) = r) := by
  refine ⟨?_, ?_, rfl, rfl, fun r => rfl⟩
  · simp [ObjectDetectionService.detect_batch]
  · intro res hres
    exact List.eq_of_mem_replicate hres

/-- C7 counterexample.  With client 1 connected, a `disconnect` whose
underlying websocket `close` raises leaves every per-client entry exactly
in place — the blanket `except` swallows the error before any `del` runs —
so cleanup is not unconditional on the error exit path. -/
theorem disconnect_error_keeps_state_counterexample :
    WebSocketManager.disconnect true 1 ⟨[1], [(1, 0)], [(1, [])]⟩ =
      ⟨[1], [(1, 0)], [(1, [])]⟩ ∧
    1 ∈ (⟨[1], [(1, 0)], [(1, [])]⟩ : WSManagerState).active_connections := by
  constructor
  · rfl
  · exact List.mem_singleton.mpr rfl

/-- A disconnect of an unknown client id is a no-op. -/
theorem disconnect_eq_of_not_mem (b : Bool) (cid : Nat) (st : WSManagerState)
    (h : cid ∉ st.active_connections) :
    WebSocketManager.disconnect b cid st = st := by
  rw [WebSocketManager.disconnect, if_neg h]

/-- A disconnect whose websocket close raises changes nothing. -/
theorem disconnect_eq_raise (cid : Nat) (st : WSManagerState)
    (h : cid ∈ st.active_connections) :
    WebSocketManager.disconnect true cid st = st := by
  rw [WebSocketManager.disconnect, if_pos h, if_pos rfl]

/-- A successful disconnect filters the client out of all three maps. -/
theorem disconnect_eq_success (cid : Nat) (st : WSManagerState)
    (h : cid ∈ st.active_connections) :
    WebSocketManager.disconnect false cid st =
      { active_connections := st.active_connections.filter (fun c => c ≠ cid),
        client_heartbeats := st.client_heartbeats.filter (fun p => p.1 ≠ cid),
        client_message_queues :=
          st.client_message_queues.filter (fun p => p.1 ≠ cid) } := by
  rw [WebSocketManager.disconnect, if_pos h, if_neg Bool.false_ne_true]

/-- C7 amended.  Closing twice is a no-op the second time (idempotent, no
error: every exception is swallowed).  On the successful path the client's
connection entry, heartbeat and queue are all removed, other clients are
untouched, and `_cleanup_client` also cancels and drops the pending
processing task.  On the error path — the websocket `close` raising — the
per-client entries all survive, so cleanup is unconditional only on the
success path. -/
theorem disconnect_cleanup (st : WSManagerState) (cid : Nat) (b : Bool)
    (tasks : List Nat) :
    (WebSocketManager.disconnect b cid
        (WebSocketManager.disconnect false cid st) =
      WebSocketManager.disconnect false cid st) ∧
    (cid ∈ st.active_connections →
      cid ∉ (WebSocketManager.disconnect false cid st).active_connections ∧
      lookupKey cid
        (WebSocketManager.disconnect false cid st).client_heartbeats = none ∧
      lookupKey cid
        (WebSocketManager.disconnect false cid st).client_message_queues =
        none) ∧
    (∀ c, c ≠ cid →
      ((c ∈ (WebSocketManager.disconnect false cid st).active_connections ↔
        c ∈ st.active_connections) ∧
      lookupKey c (WebSocketManager.disconnect false cid st).client_heartbeats =
        lookupKey c st.client_heartbeats ∧
      lookupKey c
          (WebSocketManager.disconnect false cid st).client_message_queues =
        lookupKey c st.client_message_queues)) ∧
    (cid ∈ st.active_connections →
      WebSocketManager.disconnect true cid st = st) ∧
    ((SurveillanceWebSocketHandler.cleanup_client false cid tasks st).1 =
      tasks.filter (fun t => t ≠ cid) ∧
     cid ∉ (SurveillanceWebSocketHandler.cleanup_client false cid tasks st).1 ∧
     (SurveillanceWebSocketHandler.cleanup_client false cid tasks st).2 =
      WebSocketManager.disconnect false cid st) := by
  refine ⟨?_, ?_, ?_, disconnect_eq_raise cid st, rfl, ?_, rfl⟩
  · by_cases h : cid ∈ st.active_connections
    · rw [disconnect_eq_success cid st h]
      refine disconnect_eq_of_not_mem b cid _ ?_
      intro hmem
      have := (List.mem_filter.mp hmem).2
      simp at this
    · rw [disconnect_eq_of_not_mem false cid st h,
        disconnect_eq_of_not_mem b cid st h]
  · intro h
    rw [disconnect_eq_success cid st h]
    refine ⟨?_, ?_, ?_⟩
    · intro hmem
      have := (List.mem_filter.mp hmem).2
      simp at this
    · rw [lookupKey_removeK, if_pos rfl]
    · rw [lookupKey_removeK, if_pos rfl]
  · intro c hc
    by_cases h : cid ∈ st.active_connections
    · rw [disconnect_eq_success cid st h]
      refine ⟨?_, ?_, ?_⟩
      · constructor
        · intro hmem
          exact (List.mem_filter.mp hmem).1
        · intro hmem
          exact List.mem_filter.mpr ⟨hmem, by simpa using hc⟩
      · rw [lookupKey_removeK, if_neg hc]
      · rw [lookupKey_removeK, if_neg hc]
    · rw [disconnect_eq_of_not_mem false cid st h]
      exact ⟨Iff.rfl, rfl, rfl⟩
  · show cid ∉ tasks.filter (fun t => t ≠ cid)
    intro hmem
    have := (List.mem_filter.mp hmem).2
    simp at this

/-- C7 witness: the cleanup theorem applied to a two-client state,
disconnecting client 1. -/
theorem disconnect_cleanup_witness :
    1 ∉ (WebSocketManager.disconnect false 1
      ⟨[1, 2], [(1, 0), (2, 0)], [(1, []), (2, [])]⟩).active_connections ∧
    lookupKey 2 (WebSocketManager.disconnect false 1
      ⟨[1, 2], [(1, 0), (2, 0)], [(1, []), (2, [])]⟩).client_heartbeats =
      lookupKey 2 (⟨[1, 2], [(1, 0), (2, 0)],
        [(1, []), (2, [])]⟩ : WSManagerState).client_heartbeats ∧
    WebSocketManager.disconnect true 1
        ⟨[1, 2], [(1, 0), (2, 0)], [(1, []), (2, [])]⟩ =
      ⟨[1, 2], [(1, 0), (2, 0)], [(1, []), (2, [])]⟩ :=
  ⟨((disconnect_cleanup ⟨[1, 2], [(1, 0), (2, 0)], [(1, []), (2, [])]⟩ 1
      true []).2.1 (by decide)).1,
   ((disconnect_cleanup ⟨[1, 2], [(1, 0), (2, 0)], [(1, []), (2, [])]⟩ 1
      true []).2.2.1 2 (by decide)).2.1,
   (disconnect_cleanup ⟨[1, 2], [(1, 0), (2, 0)], [(1, []), (2, [])]⟩ 1
      true []).2.2.2.1 (by decide)⟩

/-- Lookup through a per-entry overwrite at key `m`. -/
theorem lookupKey_map_set {β : Type} (m : Nat) (v : β) (k : Nat)
    (l : List (Nat × β)) :
    lookupKey k (l.map (fun p => if p.1 = m then (p.1, v) else p)) =
      (lookupKey k l).map (fun w => if k = m then v else w) :=
  lookupKey_map_update m (fun _ => v) k l

/-- With the client id present, `_initialize_connection` overwrites its
entry in place. -/
theorem initialize_connection_eq_mem (now : ℚ) (cid : Nat)
    (st : HandlerState) (h : (lookupKey cid st.active).isSome) :
    SurveillanceWebSocketHandler.initialize_connection now cid st =
      { st with active := (st.active.map
          (fun p => if p.1 = cid then (p.1, ⟨now, now, 0⟩) else p)) } := by
  rw [SurveillanceWebSocketHandler.initialize_connection, if_pos h]

/-- With the stored counter at the bound, the reconnection is refused and
nothing changes. -/
theorem handle_reconnection_refused (now : ℚ) (cid : Nat)
    (st : HandlerState) (ci : HandlerConn)
    (hl : lookupKey cid st.active = some ci)
    (h : SurveillanceWebSocketHandler.max_reconnect_attempts ≤
      ci.reconnect_attempts) :
    SurveillanceWebSocketHandler.handle_reconnection now cid st =
      (ReconnectOutcome.Refused, st) := by
  simp only [SurveillanceWebSocketHandler.handle_reconnection, hl, if_pos h]

/-- Below the bound, the reconnection increments the stored counter, waits
out the backoff, and then overwrites the entry with a fresh one. -/
theorem handle_reconnection_accepted (now : ℚ) (cid : Nat)
    (st : HandlerState) (ci : HandlerConn)
    (hl : lookupKey cid st.active = some ci)
    (h : ¬ SurveillanceWebSocketHandler.max_reconnect_attempts ≤
      ci.reconnect_attempts) :
    SurveillanceWebSocketHandler.handle_reconnection now cid st =
      (ReconnectOutcome.Accepted,
       SurveillanceWebSocketHandler.initialize_connection
         (now + SurveillanceWebSocketHandler.reconnect_delay) cid
         { st with active := (st.active.map
            (fun p => if p.1 = cid then
                (p.1, (⟨p.2.connected_at, p.2.last_activity,
                  p.2.reconnect_attempts + 1⟩ : HandlerConn))
              else p)) }) := by
  simp only [SurveillanceWebSocketHandler.handle_reconnection, hl, if_neg h]

/-- C8 amended.  A reconnection with a still-active entry is refused
exactly when the stored counter has reached the bound of 3; an accepted
reconnection happens only after the backoff delay and replaces the entry
with a fresh one whose counter is 0 — the counter therefore never
accumulates across completed reconnections; and the client-id key set is
unchanged either way, so no second entry for one client id is ever
created. -/
theorem reconnect_policy (now : ℚ) (cid : Nat) (st : HandlerState)
    (ci : HandlerConn) (hl : lookupKey cid st.active = some ci) :
    ((SurveillanceWebSocketHandler.handle_reconnection now cid st).1 =
        ReconnectOutcome.Refused ↔
      SurveillanceWebSocketHandler.max_reconnect_attempts ≤
        ci.reconnect_attempts) ∧
    ((SurveillanceWebSocketHandler.handle_reconnection now cid st).1 =
        ReconnectOutcome.Accepted →
      (lookupKey cid
          (SurveillanceWebSocketHandler.handle_reconnection now cid
            st).2.active).map HandlerConn.reconnect_attempts = some 0) ∧
    ((SurveillanceWebSocketHandler.handle_reconnection now cid
        st).2.active.map Prod.fst = st.active.map Prod.fst) := by
  by_cases h : SurveillanceWebSocketHandler.max_reconnect_attempts ≤
      ci.reconnect_attempts
  · rw [handle_reconnection_refused now cid st ci hl h]
    exact ⟨⟨fun _ => h, fun _ => rfl⟩,
      fun habs => ReconnectOutcome.noConfusion habs, rfl⟩
  · have hl1 : lookupKey cid (st.active.map
        (fun p => if p.1 = cid then
            (p.1, (⟨p.2.connected_at, p.2.last_activity,
              p.2.reconnect_attempts + 1⟩ : HandlerConn))
          else p)) =
        some (⟨ci.connected_at, ci.last_activity,
          ci.reconnect_attempts + 1⟩ : HandlerConn) := by
      rw [lookupKey_map_update cid
        (fun c => (⟨c.connected_at, c.last_activity,
          c.reconnect_attempts + 1⟩ : HandlerConn)) cid st.active, hl]
      simp
    have hsome : (lookupKey cid (st.active.map
        (fun p => if p.1 = cid then
            (p.1, (⟨p.2.connected_at, p.2.last_activity,
              p.2.reconnect_attempts + 1⟩ : HandlerConn))
          else p))).isSome := by
      rw [hl1]
      rfl
    rw [handle_reconnection_accepted now cid st ci hl h]
    rw [initialize_connection_eq_mem
      (now + SurveillanceWebSocketHandler.reconnect_delay) cid _ hsome]
    dsimp only
    refine ⟨⟨fun habs => ReconnectOutcome.noConfusion habs,
      fun habs => absurd habs h⟩, ?_, ?_⟩
    · intro _
      rw [lookupKey_map_set cid
        (⟨now + SurveillanceWebSocketHandler.reconnect_delay,
          now + SurveillanceWebSocketHandler.reconnect_delay, 0⟩ : HandlerConn)
        cid _, hl1]
      simp
    · rw [map_fst_map_update cid
        (fun _ => (⟨now + SurveillanceWebSocketHandler.reconnect_delay,
          now + SurveillanceWebSocketHandler.reconnect_delay,
          0⟩ : HandlerConn)),
        map_fst_map_update cid
        (fun c => (⟨c.connected_at, c.last_activity,
          c.reconnect_attempts + 1⟩ : HandlerConn))]

/-- C8 witness: the policy theorem applied to the state holding client 1's
fresh entry, whose counter 0 is below the bound. -/
theorem reconnect_policy_witness :
    (SurveillanceWebSocketHandler.handle_reconnection 10 1 c8State0).1 =
        ReconnectOutcome.Refused ↔
      SurveillanceWebSocketHandler.max_reconnect_attempts ≤
        (⟨0, 0, 0⟩ : HandlerConn).reconnect_attempts :=
  (reconnect_policy 10 1 c8State0 ⟨0, 0, 0⟩ rfl).1

set_option maxHeartbeats 1000000 in
/-- C8 counterexample.  Four successive reconnections of client 1 are all
accepted — none refused — and after the fourth the stored counter is still
0: each completed reconnection replaces the entry with a counter of 0 via
`_initialize_connection`, so the bound of 3 is never enforced across
repeated reconnects. -/
theorem reconnect_bound_not_enforced_counterexample :
    c8R1.1 = ReconnectOutcome.Accepted ∧
    c8R2.1 = ReconnectOutcome.Accepted ∧
    c8R3.1 = ReconnectOutcome.Accepted ∧
    c8R4.1 = ReconnectOutcome.Accepted ∧
    (lookupKey 1 c8R4.2.active).map HandlerConn.reconnect_attempts =
      some 0 := by
  refine ⟨?_, ?_, ?_, ?_, ?_⟩ <;>
    norm_num [c8State0, c8R1, c8R2, c8R3, c8R4,
      SurveillanceWebSocketHandler.handle_reconnection,
      SurveillanceWebSocketHandler.initialize_connection,
      SurveillanceWebSocketHandler.max_reconnect_attempts,
      SurveillanceWebSocketHandler.reconnect_delay, lookupKey]

/-- When the inserted key is still live in the cache, the put overwrites
its entry in place (after purging expired entries). -/
theorem TTLCache.put_entries_pos (t0 : ℚ) (k : Nat) (v : List Detection)
    (st : TTLCacheState)
    (hs : (lookupKey k (st.entries.filter
      (fun p => ¬ (p.2.expires ≤ t0)))).isSome) :
    (TTLCache.put t0 k v st).entries =
      (st.entries.filter (fun p => ¬ (p.2.expires ≤ t0))).map
        (fun p => if p.1 = k then
          (p.1, ⟨v, t0 + ObjectDetectionService.cache_ttl⟩) else p) := by
  simp only [TTLCache.put, if_pos hs]

/-- When the inserted key is not live in the cache, the put appends a fresh
entry (after purging expired entries). -/
theorem TTLCache.put_entries_neg (t0 : ℚ) (k : Nat) (v : List Detection)
    (st : TTLCacheState)
    (hs : ¬ (lookupKey k (st.entries.filter
      (fun p => ¬ (p.2.expires ≤ t0)))).isSome) :
    (TTLCache.put t0 k v st).entries =
      st.entries.filter (fun p => ¬ (p.2.expires ≤ t0)) ++
        [(k, ⟨v, t0 + ObjectDetectionService.cache_ttl⟩)] := by
  simp only [TTLCache.put, if_neg hs]

/-- C9.  A result-cache entry inserted at `t0` is returned by `get` at any
time strictly before `t0 + ttl` and is treated as absent from `t0 + ttl`
on, regardless of interleaved accesses: as in the cachetools TTLCache the
source instantiates, a get reads without mutating, so accesses never extend
an entry's lifetime. -/
theorem cache_ttl_window (st : TTLCacheState) (k : Nat) (v : List Detection)
    (t0 t : ℚ) (ops : List CacheAccess) :
    TTLCache.get t k (TTLCache.applyAccesses ops (TTLCache.put t0 k v st)) =
      if t < t0 + ObjectDetectionService.cache_ttl then some v else none := by
  have hid : ∀ s : TTLCacheState, TTLCache.applyAccesses ops s = s := by
    intro s
    induction ops generalizing s with
    | nil => rfl
    | cons op ops ih =>
        show List.foldl _ s (op :: ops) = s
        rw [List.foldl_cons]
        exact ih _
  rw [hid]
  have hlk : lookupKey k (TTLCache.put t0 k v st).entries =
      some ⟨v, t0 + ObjectDetectionService.cache_ttl⟩ := by
    by_cases hs : (lookupKey k (st.entries.filter
        (fun p => ¬ (p.2.expires ≤ t0)))).isSome
    · rw [TTLCache.put_entries_pos t0 k v st hs,
        lookupKey_map_set k
          (⟨v, t0 + ObjectDetectionService.cache_ttl⟩ : CacheEntry) k _]
      obtain ⟨e, he⟩ := Option.isSome_iff_exists.mp hs
      rw [he]
      simp
    · rw [TTLCache.put_entries_neg t0 k v st hs, lookupKey_append]
      rw [Option.not_isSome_iff_eq_none.mp hs, Option.none_or]
      exact @lookupKey_cons_self CacheEntry
        (k, ⟨v, t0 + ObjectDetectionService.cache_ttl⟩) [] k rfl
  simp only [TTLCache.get, TTLCache.lookup, hlk]
  by_cases ht : t < t0 + ObjectDetectionService.cache_ttl
  · rw [if_pos ht, if_neg (not_le.mpr ht)]
  · rw [if_neg ht, if_pos (not_lt.mp ht)]

/-- C10.  With the client connected and its outbound queue already holding
`queue_maxsize` messages — and, the model being single-threaded, staying
full through the one-second `asyncio.wait_for` — the put times out, the
timeout is caught, and `send_message` returns with the message dropped:
no exception propagates, no disconnect happens, and the state — connection
entry, heartbeat, queue contents, and every other client's entries — is
returned unchanged. -/
theorem send_message_queue_full (st : WSManagerState) (cid msg : Nat)
    (b : Bool) (q : List Nat)
    (h1 : cid ∈ st.active_connections)
    (h2 : lookupKey cid st.client_message_queues = some q)
    (h3 : WebSocketManager.queue_maxsize ≤ q.length) :
    WebSocketManager.send_message b cid msg st =
      (st, SendOutcome.dropped_queue_full) := by
  have hmem : ¬ cid ∉ st.active_connections := fun hn => hn h1
  simp only [WebSocketManager.send_message, h2, if_neg hmem, if_pos h3]

/-- C10 witness: a connected client whose queue holds exactly
`queue_maxsize` messages has its message dropped with no state change. -/
theorem send_message_queue_full_witness :
    WebSocketManager.send_message false 1 7
        ⟨[1], [(1, 0)], [(1, List.replicate 100 0)]⟩ =
      (⟨[1], [(1, 0)], [(1, List.replicate 100 0)]⟩,
        SendOutcome.dropped_queue_full) :=
  send_message_queue_full ⟨[1], [(1, 0)], [(1, List.replicate 100 0)]⟩ 1 7
    false (List.replicate 100 0) (by decide) rfl (by decide)
